import Mathlib

/-! # Block store (`src/src/block_store.c`)

A shallow embedding of the block store: a free-block bitmap over 256 slots, a
table of optional byte buffers, raw block read/write, and the flat-file
serialisation with the bitmap stored in block 127.

Conventions of the embedding:

* a C pointer that may be `NULL` is an `Option`;
* `size_t` values are natural numbers, reduced modulo `2 ^ 64` where the C
  arithmetic can wrap;
* a byte buffer is a `List Nat`;
* a function that mutates the store returns the new store next to its C
  return value.
-/

set_option autoImplicit false

namespace BlockStore

/-! ## Constants -/

/-- The largest `size_t` value, used by the code as its "invalid" sentinel. -/
def SIZE_MAX : Nat := 2 ^ 64 - 1

/-- Modelled from the spec: `block_store.h` is not part of the sources; the
spec gives `TOTAL_BLOCKS` the value 256, which is also the literal bound of the
loops in `block_store_serialize` and `block_store_deserialize`. -/
def BLOCK_STORE_NUM_BLOCKS : Nat := 256

/-- Modelled from the spec: `AVAILABLE_BLOCKS = TOTAL_BLOCKS - 1`
(`block_store.h` is not part of the sources). -/
def BLOCK_STORE_AVAIL_BLOCKS : Nat := BLOCK_STORE_NUM_BLOCKS - 1

/-- Modelled from the spec: `BLOCK_SIZE`, bytes per block, reference value 1024
(`block_store.h` is not part of the sources). -/
def BLOCK_SIZE_BYTES : Nat := 1024

/-- Modelled from the spec: `BITMAP_BYTES`, the byte length of the exported
bitmap, reference value 32 (`block_store.h` is not part of the sources). -/
def BITMAP_SIZE_BYTES : Nat := 32

/-- Modelled from the spec: the byte count of the whole store,
`TOTAL_BLOCKS * BLOCK_SIZE`, which is what `block_store_serialize` returns
(`block_store.h` is not part of the sources). -/
def BLOCK_STORE_NUM_BYTES : Nat := BLOCK_STORE_NUM_BLOCKS * BLOCK_SIZE_BYTES

/-- The slot whose file block holds the bitmap: the literal `127` of
`block_store_serialize` and `block_store_deserialize`. -/
def METADATA_BLOCK_INDEX : Nat := 127

/-- Subtraction of two `size_t` values, wrapping modulo `2 ^ 64`. -/
def size_t_sub (a b : Nat) : Nat := (a % 2 ^ 64 + (2 ^ 64 - b % 2 ^ 64)) % 2 ^ 64

/-! ## libc buffers -/

/-- The C call `memcpy(dst, src, n)`: the first `n` bytes of `dst` are replaced
by the first `n` bytes of `src`. -/
def memcpy (dst src : List Nat) (n : Nat) : List Nat := src.take n ++ dst.drop n

/-- The C call `memset(dst, c, n)`: the first `n` bytes of `dst` become `c`. -/
def memset (dst : List Nat) (c n : Nat) : List Nat := List.replicate n c ++ dst.drop n

/-- The C call `calloc(n, size)`: a fresh buffer of `n * size` zero bytes (the
allocation is taken to succeed). -/
def calloc (n size : Nat) : Option (List Nat) := some (List.replicate (n * size) 0)

/-- The C call `malloc(n)`: a fresh buffer of `n` bytes whose content is
indeterminate; byte `i` of it is `junk i`. -/
def malloc (junk : Nat → Nat) (n : Nat) : List Nat := (List.range n).map junk

/-- The pointer table of a struct that `malloc` hands out zeroed: every entry is
`NULL`. -/
def null_table : Nat → Option (List Nat) := fun _ => none

/-! ## The bitmap collaborator -/

/-- Modelled from the spec: the bitmap library (`bitmap.h`) is an external
collaborator that is not part of the sources. A bitmap is a fixed-size
bit-indexed set; here it is the list of its bits, bit `i` at position `i`. -/
structure bitmap_t where
  /-- The bits, in index order. -/
  bits : List Bool
deriving DecidableEq

/-- Modelled from the spec: `create(capacity)` of the bitmap contract, an empty
bitmap of `n_bits` bits. -/
def bitmap_create (n_bits : Nat) : Option bitmap_t :=
  if n_bits = 0 then none else some ⟨List.replicate n_bits false⟩

/-- Modelled from the spec: `test(bm, i)` of the bitmap contract. -/
def bitmap_test (bm : Option bitmap_t) (bit : Nat) : Bool :=
  match bm with
  | none => false
  | some b => b.bits.getD bit false

/-- Modelled from the spec: `set(bm, i)` of the bitmap contract. -/
def bitmap_set (bm : Option bitmap_t) (bit : Nat) : Option bitmap_t :=
  match bm with
  | none => none
  | some b => some ⟨b.bits.set bit true⟩

/-- Modelled from the spec: `reset(bm, i)` of the bitmap contract. -/
def bitmap_reset (bm : Option bitmap_t) (bit : Nat) : Option bitmap_t :=
  match bm with
  | none => none
  | some b => some ⟨b.bits.set bit false⟩

/-- Modelled from the spec: `total_set(bm)` of the bitmap contract, the number
of set bits. -/
def bitmap_total_set (bm : Option bitmap_t) : Nat :=
  match bm with
  | none => 0
  | some b => b.bits.count true

/-- Modelled from the spec: `find_first_zero(bm) -> index | sentinel` of the
bitmap contract: the lowest clear bit, or `SIZE_MAX` when no bit is clear. -/
def bitmap_ffz (bm : Option bitmap_t) : Nat :=
  match bm with
  | none => SIZE_MAX
  | some b =>
    let k := b.bits.findIdx (fun x => !x)
    if k = b.bits.length then SIZE_MAX else k

/-- The byte made of eight consecutive bits starting at bit `8 * k`, least
significant bit first. -/
def bitmap_byte (bits : List Bool) (k : Nat) : Nat :=
  (bits.getD (8 * k) false).toNat + 2 * (bits.getD (8 * k + 1) false).toNat
    + 4 * (bits.getD (8 * k + 2) false).toNat + 8 * (bits.getD (8 * k + 3) false).toNat
    + 16 * (bits.getD (8 * k + 4) false).toNat + 32 * (bits.getD (8 * k + 5) false).toNat
    + 64 * (bits.getD (8 * k + 6) false).toNat + 128 * (bits.getD (8 * k + 7) false).toNat

/-- Modelled from the spec: `export(bm) -> byte-view` of the bitmap contract:
the bits packed eight to a byte, `ceil(n / 8)` bytes. -/
def bitmap_export (bm : Option bitmap_t) : List Nat :=
  match bm with
  | none => []
  | some b => (List.range ((b.bits.length + 7) / 8)).map (bitmap_byte b.bits)

/-- Modelled from the spec: `import(capacity, bytes) -> bm` of the bitmap
contract: the bitmap of `n_bits` bits whose byte view is the start of `data`. -/
def bitmap_import (n_bits : Nat) (data : List Nat) : Option bitmap_t :=
  if n_bits = 0 then none
  else some ⟨(List.range n_bits).map (fun i => (data.getD (i / 8) 0).testBit (i % 8))⟩

/-! ## The block store -/

/-- The C struct `block_store`: the free-block bitmap `fbm` and the table
`blocks` of `BLOCK_STORE_NUM_BLOCKS` buffer pointers. -/
structure block_store_t where
  /-- The free-block bitmap (a pointer, so possibly `NULL`). -/
  fbm : Option bitmap_t
  /-- The table of block buffers; `none` is a `NULL` entry. -/
  blocks : List (Option (List Nat))
deriving DecidableEq

/-- The function `block_store_create`. `malloc` leaves the pointer table
indeterminate and the function never writes it: entry `i` of the new store is
`stale i`, what the memory handed out happens to hold, `none` for a null word
and `some blk` for a word that points at the bytes `blk` (such as a buffer that
an earlier store left behind, since `block_store_destroy` frees no buffer). -/
def block_store_create (stale : Nat → Option (List Nat)) : Option block_store_t :=
  match bitmap_create BLOCK_STORE_NUM_BLOCKS with
  | none => none
  | some fbm => some ⟨some fbm, (List.range BLOCK_STORE_NUM_BLOCKS).map stale⟩

/-- The function `block_store_allocate`: the id it returns and the store
afterwards. -/
def block_store_allocate (bs : Option block_store_t) : Nat × Option block_store_t :=
  match bs with
  | none => (SIZE_MAX, none)
  | some s =>
    let id := bitmap_ffz s.fbm
    if id ≠ SIZE_MAX ∧ id ≠ BLOCK_STORE_AVAIL_BLOCKS then
      (id, some ⟨bitmap_set s.fbm id, s.blocks.set id (calloc BLOCK_SIZE_BYTES 1)⟩)
    else
      (SIZE_MAX, some s)

/-- The function `block_store_request`: its result and the store afterwards. -/
def block_store_request (bs : Option block_store_t) (block_id : Nat) :
    Bool × Option block_store_t :=
  match bs with
  | none => (false, none)
  | some s =>
    match s.fbm with
    | none => (false, some s)
    | some _ =>
      if block_id < BLOCK_STORE_NUM_BLOCKS then
        if bitmap_test s.fbm block_id then
          (false, some s)
        else
          (true, some ⟨bitmap_set s.fbm block_id,
            s.blocks.set block_id (calloc BLOCK_SIZE_BYTES 1)⟩)
      else
        (false, some s)

/-- The function `block_store_release`: the store afterwards. -/
def block_store_release (bs : Option block_store_t) (block_id : Nat) : Option block_store_t :=
  match bs with
  | none => none
  | some s =>
    match s.fbm with
    | none => some s
    | some _ =>
      if block_id < BLOCK_STORE_NUM_BLOCKS then
        some ⟨bitmap_reset s.fbm block_id, s.blocks.set block_id none⟩
      else
        some s

/-- The function `block_store_get_used_blocks`. -/
def block_store_get_used_blocks (bs : Option block_store_t) : Nat :=
  match bs with
  | none => SIZE_MAX
  | some s =>
    match s.fbm with
    | none => SIZE_MAX
    | some _ => bitmap_total_set s.fbm

/-- The function `block_store_get_free_blocks`; the subtraction is the
`size_t` one. -/
def block_store_get_free_blocks (bs : Option block_store_t) : Nat :=
  match bs with
  | none => SIZE_MAX
  | some s =>
    match s.fbm with
    | none => SIZE_MAX
    | some _ => size_t_sub BLOCK_STORE_AVAIL_BLOCKS (bitmap_total_set s.fbm)

/-- The function `block_store_get_total_blocks`. -/
def block_store_get_total_blocks : Nat := BLOCK_STORE_AVAIL_BLOCKS

/-- The function `block_store_read`: the byte count it returns and the
caller's buffer afterwards. The range check lets ids up to
`BLOCK_STORE_NUM_BYTES - 1` through, so the table can be indexed past its
entries; C leaves that access undefined, and here the word read is the entry of
the list when the list has one there and `NULL` otherwise. Whatever that word
is, the value returned is `BLOCK_SIZE_BYTES`. -/
def block_store_read (bs : Option block_store_t) (block_id : Nat)
    (buffer : Option (List Nat)) : Nat × Option (List Nat) :=
  match bs, buffer with
  | some s, some buf =>
    if block_id ≥ BLOCK_STORE_NUM_BYTES ∨ block_id = 0 then
      (0, some buf)
    else
      match s.blocks.getD block_id none with
      | some blk => (BLOCK_SIZE_BYTES, some (memcpy buf blk BLOCK_SIZE_BYTES))
      | none => (BLOCK_SIZE_BYTES, some buf)
  | _, _ => (0, buffer)

/-- The function `block_store_write`: the byte count it returns and the store
afterwards. The range check lets ids up to `BLOCK_STORE_NUM_BYTES` through, so
the table can be indexed past its entries; C leaves that access undefined, and
here the word read is the entry of the list when the list has one there and
`NULL` otherwise. Whatever that word is, the value returned is
`BLOCK_SIZE_BYTES`. -/
def block_store_write (bs : Option block_store_t) (block_id : Nat)
    (buffer : Option (List Nat)) : Nat × Option block_store_t :=
  match bs, buffer with
  | some s, some buf =>
    if block_id > BLOCK_STORE_NUM_BYTES then
      (0, some s)
    else
      match s.blocks.getD block_id none with
      | some blk =>
        (BLOCK_SIZE_BYTES,
          some ⟨s.fbm, s.blocks.set block_id (some (memcpy blk buf BLOCK_SIZE_BYTES))⟩)
      | none => (BLOCK_SIZE_BYTES, some s)
  | _, _ => (0, bs)

/-! ## Persistence -/

/-- The system call `write(fd, buf, n)` on a file opened for writing: `n`
bytes of `buf` are appended to what the file holds. -/
def posix_write (file buf : List Nat) (n : Nat) : List Nat := file ++ buf.take n

/-- The system call `read(fd, buf, n)` at file offset `off`: the bytes read
overwrite the start of `buf`, and the new offset is returned. A file that could
not be opened (`none`, the descriptor `-1`) makes the call fail and leaves
`buf` as it is. -/
def posix_read (file : Option (List Nat)) (off : Nat) (buf : List Nat) (n : Nat) :
    List Nat × Nat :=
  match file with
  | none => (buf, off)
  | some bytes =>
    let got := (bytes.drop off).take n
    (got ++ buf.drop got.length, off + got.length)

/-- One iteration of the loop of `block_store_serialize`, on the scratch
buffer and the bytes written so far. A set bit over a `NULL` table entry (a
`memcpy` from `NULL` in C) leaves the scratch buffer as it is. -/
def serialize_step (s : block_store_t) (st : List Nat × List Nat) (i : Nat) :
    List Nat × List Nat :=
  let buf :=
    if i = 127 then
      memcpy st.1 (bitmap_export s.fbm) BITMAP_SIZE_BYTES
    else if !bitmap_test s.fbm i then
      memset st.1 48 BLOCK_SIZE_BYTES
    else
      match s.blocks.getD i none with
      | some blk => memcpy st.1 blk BLOCK_SIZE_BYTES
      | none => st.1
  (buf, posix_write st.2 buf BLOCK_SIZE_BYTES)

/-- The function `block_store_serialize`: the byte count it returns and the
content of the file afterwards (`none` when the call is rejected before the
file is opened). The file is taken to open; `junk` is the indeterminate content
of the scratch buffer that `malloc` returns. -/
def block_store_serialize (bs : Option block_store_t) (filename : Option String)
    (junk : Nat → Nat) : Nat × Option (List Nat) :=
  match bs, filename with
  | some s, some name =>
    if name = "\n" ∨ name = "" then
      (0, none)
    else
      let buf := malloc junk BLOCK_SIZE_BYTES
      (BLOCK_STORE_NUM_BYTES, some ((List.range 256).foldl (serialize_step s) (buf, [])).2)
  | _, _ => (0, none)

/-- One iteration of the loop of `block_store_deserialize`, on the store being
rebuilt, the scratch buffer and the file offset. The outer `none` is the early
`return NULL`. -/
def deserialize_step (bitmap : Option bitmap_t) (file : Option (List Nat))
    (st : Option (Option block_store_t × List Nat × Nat)) (i : Nat) :
    Option (Option block_store_t × List Nat × Nat) :=
  match st with
  | none => none
  | some (bs, buf, off) =>
    let r := posix_read file off buf BLOCK_SIZE_BYTES
    if bitmap_test bitmap i then
      let rq := block_store_request bs i
      if !rq.1 then
        none
      else
        let wr := block_store_write rq.2 i (some r.1)
        if wr.1 ≠ BLOCK_SIZE_BYTES then none else some (wr.2, r.1, r.2)
    else
      some (bs, r.1, r.2)

/-- The function `block_store_deserialize`, on the content `file` of the named
file (`none` when it cannot be opened). `junk` is the indeterminate content of
the scratch buffer that `malloc` returns, `stale` the indeterminate pointer
table of the store that `block_store_create` returns. -/
def block_store_deserialize (filename : Option String) (file : Option (List Nat))
    (junk : Nat → Nat) (stale : Nat → Option (List Nat)) : Option block_store_t :=
  match filename with
  | none => none
  | some _ =>
    match block_store_create stale with
    | none => none
    | some s =>
      let buf := malloc junk BLOCK_SIZE_BYTES
      let r := posix_read file (127 * BLOCK_SIZE_BYTES) buf BLOCK_SIZE_BYTES
      let bitmap := bitmap_import BLOCK_STORE_NUM_BLOCKS r.1
      match (List.range 256).foldl (deserialize_step bitmap file) (some (some s, r.1, 0)) with
      | none => none
      | some st => st.1

/-! ## Call sequences and store predicates -/

/-- A call of the allocator or of the raw block writer. -/
inductive Op where
  | allocate : Op
  | request (block_id : Nat) : Op
  | release (block_id : Nat) : Op
  | write (block_id : Nat) (buffer : List Nat) : Op

/-- The store after one call. -/
def Op.exec (bs : Option block_store_t) : Op → Option block_store_t
  | Op.allocate => (block_store_allocate bs).2
  | Op.request block_id => (block_store_request bs block_id).2
  | Op.release block_id => block_store_release bs block_id
  | Op.write block_id buffer => (block_store_write bs block_id (some buffer)).2

/-- The store reached from `block_store_create` by a sequence of calls, `stale`
being the indeterminate pointer table of the created store. -/
def run (stale : Nat → Option (List Nat)) (ops : List Op) : Option block_store_t :=
  ops.foldl Op.exec (block_store_create stale)

/-- The ids returned by `n` successive calls of `block_store_allocate`, and the
store afterwards. -/
def allocate_n : Nat → Option block_store_t → List Nat × Option block_store_t
  | 0, bs => ([], bs)
  | n + 1, bs =>
    let r := block_store_allocate bs
    let rest := allocate_n n r.2
    (r.1 :: rest.1, rest.2)

/-- A well-formed store: the bitmap is present with `BLOCK_STORE_NUM_BLOCKS`
bits and the table has `BLOCK_STORE_NUM_BLOCKS` entries. -/
def well_formed (s : block_store_t) : Bool :=
  match s.fbm with
  | none => false
  | some b =>
    decide (b.bits.length = BLOCK_STORE_NUM_BLOCKS)
      && decide (s.blocks.length = BLOCK_STORE_NUM_BLOCKS)

/-- The bitmap/table invariant: the store is well formed and bit `i` is set
exactly when table entry `i` holds a buffer. -/
def consistent (s : block_store_t) : Bool :=
  match s.fbm with
  | none => false
  | some b =>
    decide (b.bits.length = BLOCK_STORE_NUM_BLOCKS)
      && decide (s.blocks.map Option.isSome = b.bits)

/-- Every buffer of the table has exactly `BLOCK_SIZE_BYTES` bytes. -/
def blocks_sized (s : block_store_t) : Bool :=
  s.blocks.all (fun e => match e with
    | none => true
    | some blk => decide (blk.length = BLOCK_SIZE_BYTES))

/-! ## Stores and file blocks named in the proofs -/

/-- The store in which exactly the slots below `k` are allocated, each holding a
fresh zero buffer, and every other table entry is `NULL`. -/
def filled (k : Nat) : block_store_t :=
  ⟨some ⟨List.replicate k true ++ List.replicate (BLOCK_STORE_NUM_BLOCKS - k) false⟩,
    List.replicate k (calloc BLOCK_SIZE_BYTES 1)
      ++ List.replicate (BLOCK_STORE_NUM_BLOCKS - k) none⟩

/-- What `block_store_serialize` puts in the scratch buffer for a slot other
than 127: the slot's buffer when its bit is set, `BLOCK_SIZE_BYTES` copies of
the character `0` when it is clear. -/
def data_block (s : block_store_t) (i : Nat) : List Nat :=
  if bitmap_test s.fbm i then (s.blocks.getD i none).getD []
  else List.replicate BLOCK_SIZE_BYTES 48

/-- Block `i` of the file that `block_store_serialize` writes: for slot 127 the
exported bitmap followed by what the scratch buffer still holds of block 126. -/
def image_block (s : block_store_t) (i : Nat) : List Nat :=
  if i = 127 then bitmap_export s.fbm ++ (data_block s 126).drop BITMAP_SIZE_BYTES
  else data_block s i

/-- Block `i` of a file image. -/
def file_block (img : List Nat) (i : Nat) : List Nat :=
  (img.drop (i * BLOCK_SIZE_BYTES)).take BLOCK_SIZE_BYTES

/-- The store that `block_store_deserialize` has rebuilt after its first `n`
iterations, for the imported bits `bits`, the file image `img` and the pointer
table `stale` that the created store started with. -/
def rebuilt (stale : Nat → Option (List Nat)) (bits : List Bool) (img : List Nat) (n : Nat) :
    block_store_t :=
  ⟨some ⟨bits.take n ++ List.replicate (BLOCK_STORE_NUM_BLOCKS - n) false⟩,
    (List.range n).map
        (fun i => if bits.getD i false then some (file_block img i) else stale i)
      ++ (List.range' n (BLOCK_STORE_NUM_BLOCKS - n)).map stale⟩

/-- The bits that `block_store_deserialize` imports from block 127 of a file
image. -/
def image_bits (img : List Nat) : List Bool :=
  (List.range BLOCK_STORE_NUM_BLOCKS).map
    (fun i => ((file_block img 127).getD (i / 8) 0).testBit (i % 8))

/-- The store that deserialising the serialised image of `s` gives back: the
bitmap of `s`, for every set bit the corresponding block of the image, and for
every clear bit what the created store's pointer table `stale` held. -/
def restored (s : block_store_t) (stale : Nat → Option (List Nat)) : block_store_t :=
  ⟨s.fbm, (List.range BLOCK_STORE_NUM_BLOCKS).map
    (fun i => if bitmap_test s.fbm i then some (image_block s i) else stale i)⟩

/-- The store reached from a fresh store with a null pointer table by
`request(i)` followed by `write(i, pat)`. -/
def written (i : Nat) (pat : List Nat) : block_store_t :=
  ⟨bitmap_set (filled 0).fbm i,
    ((filled 0).blocks.set i (calloc BLOCK_SIZE_BYTES 1)).set i (some pat)⟩

/-! ## The bitmap/table invariant along call sequences -/

theorem block_store_create_eq (stale : Nat → Option (List Nat)) :
    block_store_create stale
      = some ⟨some ⟨List.replicate BLOCK_STORE_NUM_BLOCKS false⟩,
          (List.range BLOCK_STORE_NUM_BLOCKS).map stale⟩ := by
  have h : ¬ BLOCK_STORE_NUM_BLOCKS = 0 := by decide
  simp only [block_store_create, bitmap_create, if_neg h]

theorem map_null_table (l : List Nat) :
    l.map null_table = List.replicate l.length none := by
  induction l with
  | nil => rfl
  | cons a l ih => simp [List.replicate_succ, ih, null_table]

theorem block_store_create_null :
    block_store_create null_table
      = some ⟨some ⟨List.replicate BLOCK_STORE_NUM_BLOCKS false⟩,
          List.replicate BLOCK_STORE_NUM_BLOCKS none⟩ := by
  rw [block_store_create_eq, map_null_table, List.length_range]

theorem consistent_iff (s : block_store_t) :
    consistent s = true ↔
      ∃ b, s.fbm = some b ∧ b.bits.length = BLOCK_STORE_NUM_BLOCKS ∧ s.blocks.map Option.isSome = b.bits := by
  unfold consistent
  cases h : s.fbm with
  | none => simp
  | some b => simp

theorem well_formed_iff (s : block_store_t) :
    well_formed s = true ↔
      ∃ b, s.fbm = some b ∧ b.bits.length = BLOCK_STORE_NUM_BLOCKS ∧ s.blocks.length = BLOCK_STORE_NUM_BLOCKS := by
  unfold well_formed
  cases h : s.fbm with
  | none => simp
  | some b => simp

theorem consistent_well_formed (s : block_store_t) (h : consistent s = true) :
    well_formed s = true := by
  rw [consistent_iff] at h
  rw [well_formed_iff]
  obtain ⟨b, hb, hl, hm⟩ := h
  refine ⟨b, hb, hl, ?_⟩
  have := congrArg List.length hm
  simpa [hl] using this

theorem consistent_allocate (s : block_store_t) (h : consistent s = true) :
    ∃ s', (block_store_allocate (some s)).2 = some s' ∧ consistent s' = true := by
  rw [consistent_iff] at h
  obtain ⟨b, hb, hl, hm⟩ := h
  unfold block_store_allocate
  dsimp only
  split
  · refine ⟨_, rfl, ?_⟩
    rw [consistent_iff]
    refine ⟨⟨b.bits.set (bitmap_ffz s.fbm) true⟩, ?_, ?_, ?_⟩
    · simp [hb, bitmap_set]
    · simpa using hl
    · simp [calloc, hm]
  · exact ⟨s, rfl, (consistent_iff s).2 ⟨b, hb, hl, hm⟩⟩

theorem consistent_request (s : block_store_t) (i : Nat) (h : consistent s = true) :
    ∃ s', (block_store_request (some s) i).2 = some s' ∧ consistent s' = true := by
  have h0 := h
  rw [consistent_iff] at h
  obtain ⟨b, hb, hl, hm⟩ := h
  unfold block_store_request
  simp only [hb]
  split
  · split
    · exact ⟨s, rfl, h0⟩
    · refine ⟨_, rfl, ?_⟩
      rw [consistent_iff]
      refine ⟨⟨b.bits.set i true⟩, ?_, ?_, ?_⟩
      · simp [bitmap_set]
      · simpa using hl
      · simp [calloc, hm]
  · exact ⟨s, rfl, h0⟩

theorem consistent_release (s : block_store_t) (i : Nat) (h : consistent s = true) :
    ∃ s', block_store_release (some s) i = some s' ∧ consistent s' = true := by
  have h0 := h
  rw [consistent_iff] at h
  obtain ⟨b, hb, hl, hm⟩ := h
  unfold block_store_release
  simp only [hb]
  split
  · refine ⟨_, rfl, ?_⟩
    rw [consistent_iff]
    refine ⟨⟨b.bits.set i false⟩, ?_, ?_, ?_⟩
    · simp [bitmap_reset]
    · simpa using hl
    · simp [hm]
  · exact ⟨s, rfl, h0⟩

theorem map_isSome_set_of_getD {α : Type} (l : List (Option α)) (i : Nat) (x y : α)
    (h : l.getD i none = some x) :
    (l.set i (some y)).map Option.isSome = l.map Option.isSome := by
  induction l generalizing i with
  | nil => simp
  | cons a l ih =>
    cases i with
    | zero =>
      simp at h
      simp [h]
    | succ i =>
      simp at h
      have := ih i (by simpa using h)
      simpa using this

theorem consistent_write (s : block_store_t) (i : Nat) (buf : Option (List Nat))
    (h : consistent s = true) :
    ∃ s', (block_store_write (some s) i buf).2 = some s' ∧ consistent s' = true := by
  have h0 := h
  rw [consistent_iff] at h
  obtain ⟨b, hb, hl, hm⟩ := h
  unfold block_store_write
  cases buf with
  | none => exact ⟨s, rfl, h0⟩
  | some bf =>
    dsimp only
    split
    · exact ⟨s, rfl, h0⟩
    · split
      · rename_i blk hblk
        refine ⟨_, rfl, ?_⟩
        rw [consistent_iff]
        refine ⟨b, hb, hl, ?_⟩
        dsimp only
        rw [map_isSome_set_of_getD _ _ blk _ hblk, hm]
      · exact ⟨s, rfl, h0⟩

theorem consistent_exec (s : block_store_t) (op : Op) (h : consistent s = true) :
    ∃ s', op.exec (some s) = some s' ∧ consistent s' = true := by
  cases op with
  | allocate => exact consistent_allocate s h
  | request i => exact consistent_request s i h
  | release i => exact consistent_release s i h
  | write i buf => exact consistent_write s i (some buf) h

theorem consistent_foldl (ops : List Op) (s : block_store_t) (h : consistent s = true) :
    ∃ s', ops.foldl Op.exec (some s) = some s' ∧ consistent s' = true := by
  induction ops generalizing s with
  | nil => exact ⟨s, rfl, h⟩
  | cons op ops ih =>
    obtain ⟨s1, h1, hc1⟩ := consistent_exec s op h
    simp only [List.foldl_cons, h1]
    exact ih s1 hc1

theorem consistent_run (ops : List Op) :
    ∃ s, run null_table ops = some s ∧ consistent s = true := by
  unfold run
  rw [block_store_create_null]
  apply consistent_foldl
  rw [consistent_iff]
  exact ⟨_, rfl, List.length_replicate _ _, by rw [List.map_replicate]; rfl⟩

/-! ## Successive allocations from a fresh store -/

theorem filled_zero : block_store_create null_table = some (filled 0) := by
  rw [block_store_create_null]
  simp [filled]

theorem set_replicate_append {α : Type} (k m : Nat) (a b : α) :
    (List.replicate k a ++ List.replicate (m + 1) b).set k a
      = List.replicate (k + 1) a ++ List.replicate m b := by
  induction k with
  | zero => simp [List.replicate_succ]
  | succ k ih =>
    rw [List.replicate_succ, List.cons_append, List.set_cons_succ, ih]
    simp [List.replicate_succ]

theorem findIdx_replicate_append (k m : Nat) :
    (List.replicate k true ++ List.replicate (m + 1) false).findIdx (fun x => !x) = k := by
  induction k with
  | zero => simp [List.replicate_succ, List.findIdx_cons]
  | succ k ih =>
    rw [List.replicate_succ, List.cons_append, List.findIdx_cons]
    simp [ih]

theorem ffz_filled (k : Nat) (hk : k < BLOCK_STORE_NUM_BLOCKS) :
    bitmap_ffz (filled k).fbm = k := by
  obtain ⟨m, hm⟩ : ∃ m, BLOCK_STORE_NUM_BLOCKS - k = m + 1 := ⟨BLOCK_STORE_NUM_BLOCKS - k - 1, by omega⟩
  simp only [bitmap_ffz, filled, hm, findIdx_replicate_append]
  simp

theorem filled_succ (k : Nat) (hk : k < BLOCK_STORE_NUM_BLOCKS) :
    (⟨bitmap_set (filled k).fbm k, (filled k).blocks.set k (calloc BLOCK_SIZE_BYTES 1)⟩
      : block_store_t) = filled (k + 1) := by
  obtain ⟨m, hm⟩ : ∃ m, BLOCK_STORE_NUM_BLOCKS - k = m + 1 := ⟨BLOCK_STORE_NUM_BLOCKS - k - 1, by omega⟩
  have hm' : BLOCK_STORE_NUM_BLOCKS - (k + 1) = m := by omega
  simp only [filled, bitmap_set, hm, hm', set_replicate_append]

theorem allocate_filled (k : Nat) (hk : k < BLOCK_STORE_AVAIL_BLOCKS) :
    block_store_allocate (some (filled k)) = (k, some (filled (k + 1))) := by
  have hk' : k < BLOCK_STORE_NUM_BLOCKS := by
    simp only [BLOCK_STORE_AVAIL_BLOCKS] at hk; omega
  have h1 : k ≠ SIZE_MAX := by
    simp only [BLOCK_STORE_AVAIL_BLOCKS, BLOCK_STORE_NUM_BLOCKS, SIZE_MAX] at *; omega
  have h2 : k ≠ BLOCK_STORE_AVAIL_BLOCKS := by omega
  simp only [block_store_allocate, ffz_filled k hk', ne_eq, h1, h2, not_false_eq_true, and_self,
    if_true, filled_succ k hk']

theorem allocate_filled_full :
    block_store_allocate (some (filled BLOCK_STORE_AVAIL_BLOCKS))
      = (SIZE_MAX, some (filled BLOCK_STORE_AVAIL_BLOCKS)) := by
  have hk' : BLOCK_STORE_AVAIL_BLOCKS < BLOCK_STORE_NUM_BLOCKS := by decide
  simp only [block_store_allocate, ffz_filled _ hk', ne_eq, not_true_eq_false, and_false,
    if_false]

theorem allocate_n_filled (n k : Nat) (h : k + n ≤ BLOCK_STORE_AVAIL_BLOCKS) :
    allocate_n n (some (filled k)) = (List.range' k n, some (filled (k + n))) := by
  induction n generalizing k with
  | zero => simp [allocate_n]
  | succ n ih =>
    have hk : k < BLOCK_STORE_AVAIL_BLOCKS := by omega
    simp only [allocate_n, allocate_filled k hk, ih (k + 1) (by omega), List.range'_succ]
    congr 3
    omega

theorem allocate_n_create (n : Nat) (h : n ≤ BLOCK_STORE_AVAIL_BLOCKS) :
    allocate_n n (block_store_create null_table) = (List.range n, some (filled n)) := by
  rw [filled_zero, allocate_n_filled n 0 (by omega), List.range_eq_range']
  simp

theorem used_filled (k : Nat) : block_store_get_used_blocks (some (filled k)) = k := by
  simp [block_store_get_used_blocks, filled, bitmap_total_set, List.count_append,
    List.count_replicate]

theorem well_formed_filled (k : Nat) (hk : k ≤ BLOCK_STORE_NUM_BLOCKS) :
    well_formed (filled k) = true := by
  rw [well_formed_iff]
  refine ⟨_, rfl, ?_, ?_⟩
  · simp only [List.length_append, List.length_replicate]; omega
  · simp only [filled, List.length_append, List.length_replicate]; omega

theorem test_filled (k i : Nat) (hi : i < BLOCK_STORE_NUM_BLOCKS) :
    bitmap_test (filled k).fbm i = decide (i < k) := by
  simp only [bitmap_test, filled, List.getD_eq_getElem?_getD]
  by_cases h : i < k
  · rw [List.getElem?_append_left (by simpa using h)]
    simp [h]
  · rw [List.getElem?_append_right (by simpa using h)]
    have : i - k < BLOCK_STORE_NUM_BLOCKS - k := by omega
    simp [h, this]

theorem request_filled (k : Nat) (hk : k < BLOCK_STORE_NUM_BLOCKS) :
    block_store_request (some (filled k)) k = (true, some (filled (k + 1))) := by
  have ht : bitmap_test (filled k).fbm k = false := by
    rw [test_filled k k hk]; simp
  have hf : (filled k).fbm
      = some ⟨List.replicate k true ++ List.replicate (BLOCK_STORE_NUM_BLOCKS - k) false⟩ := rfl
  unfold block_store_request
  simp only [hf, if_pos hk]
  rw [← hf, ht]
  simp only [Bool.false_eq_true, if_false, filled_succ k hk]

theorem requests_filled (n k : Nat) (h : k + n ≤ BLOCK_STORE_NUM_BLOCKS) :
    ((List.range' k n).map Op.request).foldl Op.exec (some (filled k))
      = some (filled (k + n)) := by
  induction n generalizing k with
  | zero => simp
  | succ n ih =>
    simp only [List.range'_succ, List.map_cons, List.foldl_cons, Op.exec,
      request_filled k (by omega), ih (k + 1) (by omega)]
    congr 2
    omega

theorem run_requests_all :
    run null_table ((List.range BLOCK_STORE_NUM_BLOCKS).map Op.request)
      = some (filled BLOCK_STORE_NUM_BLOCKS) := by
  unfold run
  rw [filled_zero, List.range_eq_range', requests_filled _ 0 (by omega)]
  simp

/-! ## Stores with the same bitmap -/

theorem allocate_congr (s t : block_store_t) (h : s.fbm = t.fbm)
    (hl : s.blocks.length = t.blocks.length) :
    (block_store_allocate (some s)).1 = (block_store_allocate (some t)).1
      ∧ ∃ s' t', (block_store_allocate (some s)).2 = some s'
          ∧ (block_store_allocate (some t)).2 = some t'
          ∧ s'.fbm = t'.fbm ∧ s'.blocks.length = t'.blocks.length := by
  unfold block_store_allocate
  dsimp only
  rw [h]
  split
  · exact ⟨rfl, _, _, rfl, rfl, rfl, by simpa using hl⟩
  · exact ⟨rfl, s, t, rfl, rfl, h, hl⟩

theorem request_congr (s t : block_store_t) (i : Nat) (h : s.fbm = t.fbm)
    (hl : s.blocks.length = t.blocks.length) :
    (block_store_request (some s) i).1 = (block_store_request (some t) i).1
      ∧ ∃ s' t', (block_store_request (some s) i).2 = some s'
          ∧ (block_store_request (some t) i).2 = some t'
          ∧ s'.fbm = t'.fbm ∧ s'.blocks.length = t'.blocks.length := by
  unfold block_store_request
  dsimp only
  rw [h]
  cases t.fbm with
  | none => exact ⟨rfl, s, t, rfl, rfl, h, hl⟩
  | some b =>
    dsimp only
    split
    · split
      · exact ⟨rfl, s, t, rfl, rfl, h, hl⟩
      · exact ⟨rfl, _, _, rfl, rfl, rfl, by simpa using hl⟩
    · exact ⟨rfl, s, t, rfl, rfl, h, hl⟩

theorem release_congr (s t : block_store_t) (i : Nat) (h : s.fbm = t.fbm)
    (hl : s.blocks.length = t.blocks.length) :
    ∃ s' t', block_store_release (some s) i = some s'
      ∧ block_store_release (some t) i = some t'
      ∧ s'.fbm = t'.fbm ∧ s'.blocks.length = t'.blocks.length := by
  unfold block_store_release
  dsimp only
  rw [h]
  cases t.fbm with
  | none => exact ⟨s, t, rfl, rfl, h, hl⟩
  | some b =>
    dsimp only
    split
    · exact ⟨_, _, rfl, rfl, rfl, by simpa using hl⟩
    · exact ⟨s, t, rfl, rfl, h, hl⟩

theorem write_keeps (s : block_store_t) (i : Nat) (buf : Option (List Nat)) :
    ∃ s', (block_store_write (some s) i buf).2 = some s'
      ∧ s'.fbm = s.fbm ∧ s'.blocks.length = s.blocks.length := by
  unfold block_store_write
  cases buf with
  | none => exact ⟨s, rfl, rfl, rfl⟩
  | some bf =>
    dsimp only
    split
    · exact ⟨s, rfl, rfl, rfl⟩
    · split
      · exact ⟨_, rfl, rfl, by simp⟩
      · exact ⟨s, rfl, rfl, rfl⟩

theorem exec_congr (op : Op) (s t : block_store_t) (h : s.fbm = t.fbm)
    (hl : s.blocks.length = t.blocks.length) :
    ∃ s' t', op.exec (some s) = some s' ∧ op.exec (some t) = some t'
      ∧ s'.fbm = t'.fbm ∧ s'.blocks.length = t'.blocks.length := by
  cases op with
  | allocate => exact (allocate_congr s t h hl).2
  | request i => exact (request_congr s t i h hl).2
  | release i => exact release_congr s t i h hl
  | write i buf =>
    obtain ⟨s', hs', hf, hsl⟩ := write_keeps s i (some buf)
    obtain ⟨t', ht', hg, htl⟩ := write_keeps t i (some buf)
    exact ⟨s', t', hs', ht', by rw [hf, hg, h], by rw [hsl, htl, hl]⟩

theorem foldl_exec_congr (ops : List Op) (s t : block_store_t) (h : s.fbm = t.fbm)
    (hl : s.blocks.length = t.blocks.length) :
    ∃ s' t', ops.foldl Op.exec (some s) = some s' ∧ ops.foldl Op.exec (some t) = some t'
      ∧ s'.fbm = t'.fbm ∧ s'.blocks.length = t'.blocks.length := by
  induction ops generalizing s t with
  | nil => exact ⟨s, t, rfl, rfl, h, hl⟩
  | cons op ops ih =>
    obtain ⟨s1, t1, hs1, ht1, h1, hl1⟩ := exec_congr op s t h hl
    simp only [List.foldl_cons, hs1, ht1]
    exact ih s1 t1 h1 hl1

theorem allocate_n_congr (n : Nat) (s t : block_store_t) (h : s.fbm = t.fbm)
    (hl : s.blocks.length = t.blocks.length) :
    (allocate_n n (some s)).1 = (allocate_n n (some t)).1
      ∧ ∃ s' t', (allocate_n n (some s)).2 = some s' ∧ (allocate_n n (some t)).2 = some t'
          ∧ s'.fbm = t'.fbm ∧ s'.blocks.length = t'.blocks.length := by
  induction n generalizing s t with
  | zero => exact ⟨rfl, s, t, rfl, rfl, h, hl⟩
  | succ n ih =>
    obtain ⟨hid, s1, t1, hs1, ht1, h1, hl1⟩ := allocate_congr s t h hl
    obtain ⟨hids, s2, t2, hs2, ht2, h2, hl2⟩ := ih s1 t1 h1 hl1
    simp only [allocate_n, hs1, ht1, hid, hids]
    exact ⟨trivial, s2, t2, hs2, ht2, h2, hl2⟩

/-- The fresh store with pointer table `stale` has the bitmap and the table
length of the fresh store with a null table. -/
theorem create_congr (stale : Nat → Option (List Nat)) :
    ∃ s, block_store_create stale = some s ∧ s.fbm = (filled 0).fbm
      ∧ s.blocks.length = (filled 0).blocks.length := by
  refine ⟨_, block_store_create_eq stale, ?_, ?_⟩
  · simp [filled]
  · simp [filled]

theorem used_congr (s t : block_store_t) (h : s.fbm = t.fbm) :
    block_store_get_used_blocks (some s) = block_store_get_used_blocks (some t) := by
  simp only [block_store_get_used_blocks, h]

theorem free_congr (s t : block_store_t) (h : s.fbm = t.fbm) :
    block_store_get_free_blocks (some s) = block_store_get_free_blocks (some t) := by
  simp only [block_store_get_free_blocks, h]

theorem well_formed_congr (s t : block_store_t) (h : s.fbm = t.fbm)
    (hl : s.blocks.length = t.blocks.length) : well_formed s = well_formed t := by
  simp only [well_formed, h, hl]

/-! ## Allocator claims -/

theorem getD_set_self_bool (l : List Bool) (i : Nat) (v : Bool) (h : i < l.length) :
    (l.set i v).getD i false = v := by
  simp [List.getD_eq_getElem?_getD, List.getElem?_set, h]

theorem set_eq_self_of_getD (l : List Bool) (i : Nat) (v : Bool) (h : l.getD i false = v)
    (hi : i < l.length) : l.set i v = l := by
  induction l generalizing i with
  | nil => simp
  | cons a l ih =>
    cases i with
    | zero => simp at h; simp [h]
    | succ i =>
      simp at h hi
      simp [ih i (by simpa using h) hi]

theorem count_set_true (l : List Bool) (i : Nat) (h : l.getD i false = false)
    (hi : i < l.length) : (l.set i true).count true = l.count true + 1 := by
  rw [List.count_set _ _ _ _ hi]
  have : l[i] = false := by
    simpa [List.getD_eq_getElem?_getD, List.getElem?_eq_getElem hi] using h
  simp [this]

/-- C8: the store returned by `block_store_create`, whatever its pointer table
holds, has no used block and `BLOCK_STORE_AVAIL_BLOCKS` free blocks, which is
also what `block_store_get_total_blocks` returns. -/
theorem fresh_store_counts (stale : Nat → Option (List Nat)) :
    block_store_get_used_blocks (block_store_create stale) = 0
      ∧ block_store_get_free_blocks (block_store_create stale) = BLOCK_STORE_AVAIL_BLOCKS
      ∧ block_store_get_total_blocks = BLOCK_STORE_AVAIL_BLOCKS := by
  obtain ⟨s, hs, hf, _⟩ := create_congr stale
  refine ⟨?_, ?_, rfl⟩
  · rw [hs, used_congr s _ hf, used_filled]
  · have h : bitmap_total_set (filled 0).fbm = 0 := by
      simpa [block_store_get_used_blocks, filled] using used_filled 0
    rw [hs, free_congr s _ hf]
    simp only [block_store_get_free_blocks, filled] at h ⊢
    rw [h]
    decide

/-- C5: from a fresh store, whatever its pointer table holds,
`BLOCK_STORE_AVAIL_BLOCKS` successive calls of `block_store_allocate` each
return a valid id (the ids `0 .. 254` in order), and the next call returns
`SIZE_MAX`. -/
theorem allocate_exhaustion (stale : Nat → Option (List Nat)) :
    (allocate_n BLOCK_STORE_AVAIL_BLOCKS (block_store_create stale)).1
        = List.range BLOCK_STORE_AVAIL_BLOCKS
      ∧ (∀ id ∈ (allocate_n BLOCK_STORE_AVAIL_BLOCKS (block_store_create stale)).1,
          id ≠ SIZE_MAX)
      ∧ (block_store_allocate
          (allocate_n BLOCK_STORE_AVAIL_BLOCKS (block_store_create stale)).2).1
        = SIZE_MAX := by
  obtain ⟨s, hs, hf, hl⟩ := create_congr stale
  obtain ⟨hids, s', t', hs', ht', hf', hl'⟩ :=
    allocate_n_congr BLOCK_STORE_AVAIL_BLOCKS s (filled 0) hf hl
  have key := allocate_n_create BLOCK_STORE_AVAIL_BLOCKS (Nat.le_refl _)
  rw [filled_zero] at key
  rw [key] at hids ht'
  dsimp only at hids ht'
  have ht : t' = filled BLOCK_STORE_AVAIL_BLOCKS := (Option.some.inj ht').symm
  rw [hs, hids, hs', (allocate_congr s' t' hf' hl').1, ht]
  refine ⟨rfl, ?_, ?_⟩
  · intro id hid
    rw [List.mem_range] at hid
    simp only [BLOCK_STORE_AVAIL_BLOCKS, BLOCK_STORE_NUM_BLOCKS, SIZE_MAX] at *
    omega
  · simp only [allocate_filled_full]

/-- C3 (the code departs from the claim): from a fresh store, whatever its
pointer table holds, the 128th successive call of `block_store_allocate` returns
`METADATA_BLOCK_INDEX`. -/
theorem allocate_returns_metadata_slot (stale : Nat → Option (List Nat)) :
    (block_store_allocate (allocate_n 127 (block_store_create stale)).2).1
      = METADATA_BLOCK_INDEX := by
  obtain ⟨s, hs, hf, hl⟩ := create_congr stale
  obtain ⟨_, s', t', hs', ht', hf', hl'⟩ := allocate_n_congr 127 s (filled 0) hf hl
  have key := allocate_n_create 127 (by decide)
  rw [filled_zero] at key
  rw [key] at ht'
  dsimp only at ht'
  have ht : t' = filled 127 := (Option.some.inj ht').symm
  rw [hs, hs', (allocate_congr s' t' hf' hl').1, ht, allocate_filled _ (by decide)]
  rfl

theorem test_eq_isSome (s : block_store_t) (i : Nat) (h : consistent s = true) :
    bitmap_test s.fbm i = (s.blocks.getD i none).isSome := by
  rw [consistent_iff] at h
  obtain ⟨b, hb, _, hm⟩ := h
  simp only [hb, bitmap_test, ← hm, List.getD_eq_getElem?_getD, List.getElem?_map]
  cases s.blocks[i]? <;> rfl

/-- C2 (the code departs from the claim): `block_store_create` leaves the
pointer table as the memory handed out held it. When word 5 of that memory
still points at a buffer (as after create, request(5), destroy and a second
create that gets the freed struct back), the store reached by the empty call
sequence has bit 5 clear while table entry 5 holds a buffer. -/
theorem create_keeps_stale_entry :
    ∃ s, run (fun i => if i = 5 then calloc BLOCK_SIZE_BYTES 1 else none) [] = some s
      ∧ 5 < BLOCK_STORE_NUM_BLOCKS
      ∧ bitmap_test s.fbm 5 = false
      ∧ (s.blocks.getD 5 none).isSome = true := by
  have h5 : 5 < BLOCK_STORE_NUM_BLOCKS := by decide
  refine ⟨_, block_store_create_eq _, h5, ?_, ?_⟩
  · simp only [bitmap_test, List.getD_eq_getElem?_getD, List.getElem?_replicate]
    split <;> rfl
  · simp [List.getD_eq_getElem?_getD, List.getElem?_range h5, calloc]

theorem ffz_eq_of_lowest (b : bitmap_t) (k : Nat) (hk : k < b.bits.length)
    (hclear : bitmap_test (some b) k = false)
    (hlow : ∀ j, j < k → bitmap_test (some b) j = true) : bitmap_ffz (some b) = k := by
  have hidx : b.bits.findIdx (fun x => !x) = k := by
    rw [List.findIdx_eq hk]
    constructor
    · simpa [bitmap_test, List.getD_eq_getElem?_getD, List.getElem?_eq_getElem hk] using hclear
    · intro j hj
      have hjl : j < b.bits.length := Nat.lt_trans hj hk
      simpa [bitmap_test, List.getD_eq_getElem?_getD, List.getElem?_eq_getElem hjl] using hlow j hj
  simp only [bitmap_ffz, hidx]
  rw [if_neg (Nat.ne_of_lt hk)]

/-- C4 (as the code has it): in a well-formed store whose lowest clear bit `k`
is below `BLOCK_STORE_AVAIL_BLOCKS`, `block_store_allocate` returns `k` (not
`SIZE_MAX`), sets bit `k` and gives slot `k` a buffer of `BLOCK_SIZE_BYTES`
zero bytes; and it returns `SIZE_MAX` exactly when the first clear bit found is
`BLOCK_STORE_AVAIL_BLOCKS` or there is none. -/
theorem allocate_lowest_free (s : block_store_t) (hwf : well_formed s = true) :
    (∀ k, k < BLOCK_STORE_AVAIL_BLOCKS → bitmap_test s.fbm k = false
        → (∀ j, j < k → bitmap_test s.fbm j = true)
        → ∃ s', block_store_allocate (some s) = (k, some s') ∧ k ≠ SIZE_MAX
            ∧ bitmap_test s'.fbm k = true
            ∧ s'.blocks.getD k none = some (List.replicate BLOCK_SIZE_BYTES 0))
      ∧ ((block_store_allocate (some s)).1 = SIZE_MAX
          ↔ bitmap_ffz s.fbm = BLOCK_STORE_AVAIL_BLOCKS ∨ bitmap_ffz s.fbm = SIZE_MAX) := by
  rw [well_formed_iff] at hwf
  obtain ⟨b, hb, hl, hbl⟩ := hwf
  constructor
  · intro k hk hclear hlow
    have hk' : k < b.bits.length := by
      rw [hl]; simp only [BLOCK_STORE_AVAIL_BLOCKS] at hk; omega
    have hkb : k < s.blocks.length := by rw [hbl, ← hl]; exact hk'
    rw [hb] at hclear hlow
    have hffz := ffz_eq_of_lowest b k hk' hclear hlow
    have h1 : k ≠ SIZE_MAX := by
      simp only [BLOCK_STORE_AVAIL_BLOCKS, BLOCK_STORE_NUM_BLOCKS, SIZE_MAX] at *; omega
    have h2 : k ≠ BLOCK_STORE_AVAIL_BLOCKS := by omega
    refine ⟨⟨bitmap_set s.fbm k, s.blocks.set k (calloc BLOCK_SIZE_BYTES 1)⟩, ?_, h1, ?_, ?_⟩
    · simp only [block_store_allocate, hb, hffz, ne_eq, h1, h2, not_false_eq_true, and_self,
        if_true]
    · simp only [hb, bitmap_set, bitmap_test]
      exact getD_set_self_bool _ _ _ hk'
    · simp [calloc, List.getD_eq_getElem?_getD, List.getElem?_set, hkb]
  · unfold block_store_allocate
    dsimp only
    split
    · rename_i h
      constructor
      · intro h'; exact absurd h' h.1
      · intro h'; rcases h' with h' | h'
        · exact absurd h' h.2
        · exact absurd h' h.1
    · rename_i h
      constructor
      · intro _
        by_cases h1 : bitmap_ffz s.fbm = SIZE_MAX
        · exact Or.inr h1
        · by_cases h2 : bitmap_ffz s.fbm = BLOCK_STORE_AVAIL_BLOCKS
          · exact Or.inl h2
          · exact absurd ⟨h1, h2⟩ h
      · intro _; rfl

/-- Witness for C4: the fresh store, where the lowest clear bit is bit 0. -/
theorem allocate_lowest_free_witness :
    well_formed (filled 0) = true
      ∧ (∃ s', block_store_allocate (some (filled 0)) = (0, some s') ∧ 0 ≠ SIZE_MAX
          ∧ bitmap_test s'.fbm 0 = true
          ∧ s'.blocks.getD 0 none = some (List.replicate BLOCK_SIZE_BYTES 0))
      ∧ ((block_store_allocate (some (filled 0))).1 = SIZE_MAX
          ↔ bitmap_ffz (filled 0).fbm = BLOCK_STORE_AVAIL_BLOCKS
            ∨ bitmap_ffz (filled 0).fbm = SIZE_MAX) :=
  ⟨well_formed_filled 0 (Nat.zero_le _),
    (allocate_lowest_free (filled 0) (well_formed_filled 0 (Nat.zero_le _))).1 0 (by decide)
      (by rw [test_filled 0 0 (by decide)]; rfl) (fun j hj => absurd hj (Nat.not_lt_zero j)),
    (allocate_lowest_free (filled 0) (well_formed_filled 0 (Nat.zero_le _))).2⟩

/-- C4 (the claim as stated fails): after 255 successive allocations from a
fresh store (its pointer table null) the store is well formed and its lowest clear bit is bit 255, which
is below `BLOCK_STORE_NUM_BLOCKS`; the first clear bit found is 255, neither
`BLOCK_STORE_NUM_BLOCKS` nor `SIZE_MAX`; yet `block_store_allocate` returns
`SIZE_MAX` and not 255. -/
theorem allocate_lowest_free_counterexample :
    ∃ s, (allocate_n 255 (block_store_create null_table)).2 = some s
      ∧ well_formed s = true
      ∧ 255 < BLOCK_STORE_NUM_BLOCKS
      ∧ bitmap_test s.fbm 255 = false
      ∧ (∀ j, j < 255 → bitmap_test s.fbm j = true)
      ∧ bitmap_ffz s.fbm = 255
      ∧ (block_store_allocate (some s)).1 = SIZE_MAX
      ∧ (255 : Nat) ≠ SIZE_MAX := by
  refine ⟨filled 255, ?_, well_formed_filled 255 (by decide), by decide, ?_, ?_, ?_, ?_,
    by decide⟩
  · rw [allocate_n_create 255 (by decide)]
  · rw [test_filled 255 255 (by decide)]; decide
  · intro j hj
    rw [test_filled 255 j (by simp only [BLOCK_STORE_NUM_BLOCKS]; omega)]
    exact decide_eq_true hj
  · exact ffz_filled 255 (by decide)
  · exact congrArg Prod.fst allocate_filled_full

theorem request_eq_of_clear (s : block_store_t) (i : Nat) (hwf : well_formed s = true)
    (hi : i < BLOCK_STORE_NUM_BLOCKS) (hclear : bitmap_test s.fbm i = false) :
    block_store_request (some s) i
      = (true, some ⟨bitmap_set s.fbm i, s.blocks.set i (calloc BLOCK_SIZE_BYTES 1)⟩) := by
  rw [well_formed_iff] at hwf
  obtain ⟨b, hb, _, _⟩ := hwf
  unfold block_store_request
  simp only [hb, if_pos hi]
  rw [← hb, hclear]
  simp

theorem request_eq_of_set (s : block_store_t) (i : Nat)
    (hset : bitmap_test s.fbm i = true) :
    block_store_request (some s) i = (false, some s) := by
  unfold block_store_request
  simp only [hset, if_true]
  split
  · rfl
  · split <;> rfl

/-- C10: on a well-formed store, requesting an in-range id whose bit is already
set returns `false` and leaves the store (bitmap and every table entry, so the
content of that slot too) unchanged. -/
theorem double_allocation_rejected (s : block_store_t) (i : Nat)
    (hwf : well_formed s = true) (hi : i < BLOCK_STORE_NUM_BLOCKS)
    (hset : bitmap_test s.fbm i = true) :
    block_store_request (some s) i = (false, some s) := by
  have _ := hwf
  have _ := hi
  exact request_eq_of_set s i hset

/-- Witness for C10: slot 3 of the store with slots 0 to 4 allocated. -/
theorem double_allocation_rejected_witness :
    well_formed (filled 5) = true ∧ 3 < BLOCK_STORE_NUM_BLOCKS
      ∧ bitmap_test (filled 5).fbm 3 = true
      ∧ block_store_request (some (filled 5)) 3 = (false, some (filled 5)) :=
  ⟨well_formed_filled 5 (by decide), by decide, by rw [test_filled 5 3 (by decide)]; rfl,
    double_allocation_rejected (filled 5) 3 (well_formed_filled 5 (by decide)) (by decide)
      (by rw [test_filled 5 3 (by decide)]; rfl)⟩

/-- C9: on a well-formed store, when requesting an in-range id succeeds, releasing
that id brings the used count back to its value before the request, and
requesting the id once more succeeds again. -/
theorem request_release_inverse (s : block_store_t) (i : Nat)
    (hwf : well_formed s = true) (hi : i < BLOCK_STORE_NUM_BLOCKS)
    (hreq : (block_store_request (some s) i).1 = true) :
    block_store_get_used_blocks (block_store_release (block_store_request (some s) i).2 i)
        = block_store_get_used_blocks (some s)
      ∧ (block_store_request (block_store_release (block_store_request (some s) i).2 i) i).1
        = true := by
  have hclear : bitmap_test s.fbm i = false := by
    cases h : bitmap_test s.fbm i with
    | false => rfl
    | true =>
      rw [request_eq_of_set s i h] at hreq
      exact absurd hreq (by simp)
  rw [request_eq_of_clear s i hwf hi hclear]
  have hwf0 := hwf
  rw [well_formed_iff] at hwf
  obtain ⟨b, hb, hl, hbl⟩ := hwf
  have hil : i < b.bits.length := by rw [hl]; exact hi
  have hget : b.bits.getD i false = false := by simpa [hb, bitmap_test] using hclear
  have hrel : block_store_release
      (some ⟨bitmap_set s.fbm i, s.blocks.set i (calloc BLOCK_SIZE_BYTES 1)⟩) i
      = some ⟨s.fbm, s.blocks.set i none⟩ := by
    simp only [block_store_release, hb, bitmap_set, bitmap_reset, if_pos hi, List.set_set,
      set_eq_self_of_getD b.bits i false hget hil]
  dsimp only
  rw [hrel]
  constructor
  · simp only [block_store_get_used_blocks, hb]
  · have hwf1 : well_formed (⟨s.fbm, s.blocks.set i none⟩ : block_store_t) = true := by
      rw [well_formed_iff]
      exact ⟨b, hb, hl, by simpa using hbl⟩
    rw [request_eq_of_clear _ i hwf1 hi hclear]

/-- Witness for C9: slot 7 of the store with slots 0 to 4 allocated. -/
theorem request_release_inverse_witness :
    well_formed (filled 5) = true ∧ 7 < BLOCK_STORE_NUM_BLOCKS
      ∧ (block_store_request (some (filled 5)) 7).1 = true
      ∧ block_store_get_used_blocks
          (block_store_release (block_store_request (some (filled 5)) 7).2 7)
        = block_store_get_used_blocks (some (filled 5))
      ∧ (block_store_request
          (block_store_release (block_store_request (some (filled 5)) 7).2 7) 7).1 = true :=
  have h : (block_store_request (some (filled 5)) 7).1 = true := by
    rw [request_eq_of_clear _ 7 (well_formed_filled 5 (by decide)) (by decide)
      (by rw [test_filled 5 7 (by decide)]; rfl)]
  ⟨well_formed_filled 5 (by decide), by decide, h,
    request_release_inverse (filled 5) 7 (well_formed_filled 5 (by decide)) (by decide) h⟩

/-- C6 (the code departs from the claim): after the 256 calls `request(0)`, ...,
`request(255)` on a fresh store, whatever its pointer table holds, the used
count is 256, one more than `BLOCK_STORE_AVAIL_BLOCKS`. -/
theorem used_count_exceeds_available (stale : Nat → Option (List Nat)) :
    block_store_get_used_blocks
        (run stale ((List.range BLOCK_STORE_NUM_BLOCKS).map Op.request))
      = BLOCK_STORE_AVAIL_BLOCKS + 1 := by
  obtain ⟨s, hs, hf, hl⟩ := create_congr stale
  obtain ⟨s', t', hs', ht', hf', _⟩ :=
    foldl_exec_congr ((List.range BLOCK_STORE_NUM_BLOCKS).map Op.request) s (filled 0) hf hl
  have hr := run_requests_all
  unfold run at hr ⊢
  rw [filled_zero, ht'] at hr
  rw [hs, hs', used_congr s' t' hf', Option.some.inj hr, used_filled]
  rfl

/-- C7 (the code departs from the claim): after the 256 calls `request(0)`, ...,
`request(255)` on a fresh store, whatever its pointer table holds, the store is
well formed, yet the free count is the wrapped difference `SIZE_MAX`, so that
used count plus free count is not `BLOCK_STORE_AVAIL_BLOCKS`. -/
theorem free_count_wraps (stale : Nat → Option (List Nat)) :
    ∃ s, run stale ((List.range BLOCK_STORE_NUM_BLOCKS).map Op.request) = some s
      ∧ well_formed s = true
      ∧ block_store_get_free_blocks (some s) = SIZE_MAX
      ∧ block_store_get_used_blocks (some s) + block_store_get_free_blocks (some s)
          ≠ BLOCK_STORE_AVAIL_BLOCKS := by
  have hu := used_filled BLOCK_STORE_NUM_BLOCKS
  have hf : block_store_get_free_blocks (some (filled BLOCK_STORE_NUM_BLOCKS)) = SIZE_MAX := by
    simp only [block_store_get_used_blocks, block_store_get_free_blocks, filled] at hu ⊢
    rw [hu]
    decide
  obtain ⟨s, hs, hfb, hl⟩ := create_congr stale
  obtain ⟨s', t', hs', ht', hf', hl'⟩ :=
    foldl_exec_congr ((List.range BLOCK_STORE_NUM_BLOCKS).map Op.request) s (filled 0) hfb hl
  have hr := run_requests_all
  unfold run at hr
  rw [filled_zero, ht'] at hr
  have ht : t' = filled BLOCK_STORE_NUM_BLOCKS := Option.some.inj hr
  rw [ht] at hf' hl'
  refine ⟨s', ?_, ?_, ?_, ?_⟩
  · unfold run
    rw [hs, hs']
  · rw [well_formed_congr s' _ hf' hl']
    exact well_formed_filled _ (Nat.le_refl _)
  · rw [free_congr s' _ hf', hf]
  · rw [free_congr s' _ hf', used_congr s' _ hf', hf, hu]
    decide

/-! ## Export and import of the bitmap -/

theorem byte_testBit (b0 b1 b2 b3 b4 b5 b6 b7 : Bool) (j : Nat) (hj : j < 8) :
    (b0.toNat + 2 * b1.toNat + 4 * b2.toNat + 8 * b3.toNat + 16 * b4.toNat + 32 * b5.toNat
        + 64 * b6.toNat + 128 * b7.toNat).testBit j
      = [b0, b1, b2, b3, b4, b5, b6, b7].getD j false := by
  interval_cases j <;> cases b0 <;> cases b1 <;> cases b2 <;> cases b3 <;> cases b4 <;>
    cases b5 <;> cases b6 <;> cases b7 <;> rfl

theorem bitmap_byte_testBit (bits : List Bool) (k j : Nat) (hj : j < 8) :
    (bitmap_byte bits k).testBit j = bits.getD (8 * k + j) false := by
  unfold bitmap_byte
  rw [byte_testBit _ _ _ _ _ _ _ _ j hj]
  interval_cases j <;> rfl

theorem length_bitmap_export (b : bitmap_t) (h : b.bits.length = BLOCK_STORE_NUM_BLOCKS) :
    (bitmap_export (some b)).length = BITMAP_SIZE_BYTES := by
  simp only [bitmap_export, List.length_map, List.length_range, h]
  rfl

theorem import_export (b : bitmap_t) (rest : List Nat)
    (h : b.bits.length = BLOCK_STORE_NUM_BLOCKS) :
    bitmap_import BLOCK_STORE_NUM_BLOCKS (bitmap_export (some b) ++ rest) = some b := by
  have hne : ¬ BLOCK_STORE_NUM_BLOCKS = 0 := by decide
  simp only [bitmap_import, if_neg hne]
  congr 1
  cases b with
  | mk bits =>
    simp only at h
    congr 1
    apply List.ext_getElem
    · simp [h]
    · intro i h1 h2
      have hi : i < BLOCK_STORE_NUM_BLOCKS := by simpa using h1
      have hi8 : i / 8 < (bits.length + 7) / 8 := by
        rw [h]; simp only [BLOCK_STORE_NUM_BLOCKS] at hi ⊢; omega
      simp only [List.getElem_map, List.getElem_range, bitmap_export,
        List.getD_eq_getElem?_getD]
      rw [List.getElem?_append_left (by simpa using hi8)]
      simp only [List.getElem?_map, List.getElem?_range hi8, Option.map_some', Option.getD_some]
      rw [bitmap_byte_testBit _ _ _ (Nat.mod_lt _ (by decide))]
      have : 8 * (i / 8) + i % 8 = i := Nat.div_add_mod i 8
      rw [this]
      simp [List.getElem?_eq_getElem h2]

/-! ## The file written by serialize -/

theorem sized_getD (s : block_store_t) (hs : blocks_sized s = true) (i : Nat) (blk : List Nat)
    (h : s.blocks.getD i none = some blk) : blk.length = BLOCK_SIZE_BYTES := by
  unfold blocks_sized at hs
  rw [List.all_eq_true] at hs
  have hmem : some blk ∈ s.blocks := by
    rw [List.getD_eq_getElem?_getD] at h
    cases hq : s.blocks[i]? with
    | none => rw [hq] at h; simp at h
    | some e =>
      rw [hq] at h
      simp only [Option.getD_some] at h
      rw [← h]
      exact List.getElem?_mem hq
  simpa using hs _ hmem

theorem length_data_block (s : block_store_t) (hc : consistent s = true)
    (hs : blocks_sized s = true) (i : Nat) : (data_block s i).length = BLOCK_SIZE_BYTES := by
  unfold data_block
  split
  · rename_i h
    rw [test_eq_isSome s i hc] at h
    cases hq : s.blocks.getD i none with
    | none => rw [hq] at h; simp at h
    | some blk => simpa using sized_getD s hs i blk hq
  · simp

theorem length_image_block (s : block_store_t) (hc : consistent s = true)
    (hs : blocks_sized s = true) (i : Nat) : (image_block s i).length = BLOCK_SIZE_BYTES := by
  unfold image_block
  split
  · obtain ⟨b, hb, hl, _⟩ := (consistent_iff s).1 hc
    rw [List.length_append, List.length_drop, length_data_block s hc hs, hb,
      length_bitmap_export b hl]
    decide
  · exact length_data_block s hc hs i

theorem take_append_drop_of_length (a b : List Nat) (n : Nat) (ha : a.length = n)
    (hb : b.length = n) : a.take n ++ b.drop n = a := by
  rw [List.take_of_length_le (Nat.le_of_eq ha), List.drop_of_length_le (Nat.le_of_eq hb)]
  simp

theorem serialize_step_eq (s : block_store_t) (hc : consistent s = true)
    (hs : blocks_sized s = true) (st : List Nat × List Nat) (i : Nat)
    (hlen : st.1.length = BLOCK_SIZE_BYTES) (h127 : i = 127 → st.1 = data_block s 126) :
    serialize_step s st i = (image_block s i, st.2 ++ image_block s i) := by
  have himg := length_image_block s hc hs i
  have key : (if i = 127 then memcpy st.1 (bitmap_export s.fbm) BITMAP_SIZE_BYTES
      else if (!bitmap_test s.fbm i) = true then memset st.1 48 BLOCK_SIZE_BYTES
      else match s.blocks.getD i none with
        | some blk => memcpy st.1 blk BLOCK_SIZE_BYTES
        | none => st.1) = image_block s i := by
    unfold image_block data_block
    split
    · rename_i hi
      obtain ⟨b, hb, hl, _⟩ := (consistent_iff s).1 hc
      have hdb : (data_block s 126) = st.1 := (h127 hi).symm
      unfold data_block at hdb
      rw [hdb]
      unfold memcpy
      rw [hb, List.take_of_length_le (Nat.le_of_eq (length_bitmap_export b hl))]
    · cases ht : bitmap_test s.fbm i with
      | false =>
        simp only [Bool.not_false, if_true, Bool.false_eq_true, if_false]
        unfold memset
        rw [List.drop_of_length_le (Nat.le_of_eq hlen)]
        simp
      | true =>
        simp only [Bool.not_true, Bool.false_eq_true, if_false, if_true]
        have h := ht
        rw [test_eq_isSome s i hc] at h
        cases hq : s.blocks.getD i none with
        | none => rw [hq] at h; simp at h
        | some blk =>
          simp only [Option.getD_some]
          unfold memcpy
          exact take_append_drop_of_length _ _ _ (sized_getD s hs i blk hq) hlen
  unfold serialize_step
  simp only [key, posix_write, List.take_of_length_le (Nat.le_of_eq himg)]

theorem file_block_append_left (out blk : List Nat) (i : Nat)
    (h : (i + 1) * BLOCK_SIZE_BYTES ≤ out.length) :
    file_block (out ++ blk) i = file_block out i := by
  unfold file_block
  have h1 : i * BLOCK_SIZE_BYTES ≤ out.length := by
    rw [Nat.add_mul] at h; omega
  rw [List.drop_append_of_le_length h1, List.take_append_of_le_length]
  rw [List.length_drop, Nat.add_mul] at *
  omega

theorem file_block_append_right (out blk : List Nat) (n : Nat)
    (h : out.length = n * BLOCK_SIZE_BYTES) (hb : blk.length = BLOCK_SIZE_BYTES) :
    file_block (out ++ blk) n = blk := by
  unfold file_block
  rw [← h, List.drop_left, List.take_of_length_le (Nat.le_of_eq hb)]

theorem serialize_fold (s : block_store_t) (hc : consistent s = true)
    (hs : blocks_sized s = true) (buf0 : List Nat) (hb : buf0.length = BLOCK_SIZE_BYTES)
    (n : Nat) :
    ∃ buf out, (List.range n).foldl (serialize_step s) (buf0, []) = (buf, out)
      ∧ buf.length = BLOCK_SIZE_BYTES
      ∧ (n = 127 → buf = data_block s 126)
      ∧ out.length = n * BLOCK_SIZE_BYTES
      ∧ ∀ i, i < n → file_block out i = image_block s i := by
  induction n with
  | zero =>
    refine ⟨buf0, [], rfl, hb, ?_, by simp, ?_⟩
    · intro h; exact absurd h (by decide)
    · intro i hi; exact absurd hi (Nat.not_lt_zero i)
  | succ n ih =>
    obtain ⟨buf, out, hf, hl, h127, hol, hblk⟩ := ih
    have himg := length_image_block s hc hs n
    refine ⟨image_block s n, out ++ image_block s n, ?_, himg, ?_, ?_, ?_⟩
    · rw [List.range_succ, List.foldl_append, hf, List.foldl_cons, List.foldl_nil,
        serialize_step_eq s hc hs (buf, out) n hl h127]
    · intro h
      have hn : n = 126 := by omega
      rw [hn]
      unfold image_block
      rw [if_neg (by decide)]
    · rw [List.length_append, hol, himg, Nat.add_mul, Nat.one_mul]
    · intro i hi
      by_cases h : i < n
      · rw [file_block_append_left out _ i, hblk i h]
        rw [hol]
        exact Nat.mul_le_mul_right _ h
      · have hin : i = n := by omega
        rw [hin]
        exact file_block_append_right out _ n hol himg

theorem length_malloc (junk : Nat → Nat) (n : Nat) : (malloc junk n).length = n := by
  simp [malloc]

theorem serialize_image (s : block_store_t) (hc : consistent s = true)
    (hs : blocks_sized s = true) (name : String) (hname : ¬ (name = "\n" ∨ name = ""))
    (junk : Nat → Nat) :
    ∃ img, block_store_serialize (some s) (some name) junk = (BLOCK_STORE_NUM_BYTES, some img)
      ∧ img.length = BLOCK_STORE_NUM_BYTES
      ∧ ∀ i, i < BLOCK_STORE_NUM_BLOCKS → file_block img i = image_block s i := by
  obtain ⟨buf, out, hf, _, _, hol, hblk⟩ :=
    serialize_fold s hc hs (malloc junk BLOCK_SIZE_BYTES) (length_malloc _ _) 256
  refine ⟨out, ?_, hol, hblk⟩
  simp only [block_store_serialize, if_neg hname, hf]

/-! ## The store rebuilt by deserialize -/

theorem length_file_block (img : List Nat) (i : Nat)
    (h : (i + 1) * BLOCK_SIZE_BYTES ≤ img.length) :
    (file_block img i).length = BLOCK_SIZE_BYTES := by
  unfold file_block
  rw [List.length_take, List.length_drop, Nat.add_mul] at *
  omega

theorem posix_read_block (img buf : List Nat) (i : Nat)
    (h : (i + 1) * BLOCK_SIZE_BYTES ≤ img.length) (hb : buf.length = BLOCK_SIZE_BYTES) :
    posix_read (some img) (i * BLOCK_SIZE_BYTES) buf BLOCK_SIZE_BYTES
      = (file_block img i, (i + 1) * BLOCK_SIZE_BYTES) := by
  have hl := length_file_block img i h
  unfold file_block at hl
  simp only [posix_read, hl, file_block, List.drop_of_length_le (Nat.le_of_eq hb),
    List.append_nil, Nat.add_mul, Nat.one_mul]

theorem set_append_replicate {α : Type} (xs : List α) (m : Nat) (a v : α) :
    (xs ++ List.replicate (m + 1) a).set xs.length v = (xs ++ [v]) ++ List.replicate m a := by
  rw [List.set_append_right _ _ (Nat.le_refl _)]
  simp [List.replicate_succ]

theorem append_replicate_succ {α : Type} (xs : List α) (m : Nat) (a : α) :
    xs ++ List.replicate (m + 1) a = (xs ++ [a]) ++ List.replicate m a := by
  simp [List.replicate_succ]

theorem getD_append_replicate {α : Type} (xs : List α) (m : Nat) (a d : α) :
    (xs ++ List.replicate (m + 1) a).getD xs.length d = a := by
  rw [List.getD_eq_getElem?_getD, List.getElem?_append_right (Nat.le_refl _)]
  simp [List.replicate_succ]

theorem take_succ_of_getD (bits : List Bool) (n : Nat) (h : n < bits.length) :
    bits.take (n + 1) = bits.take n ++ [bits.getD n false] := by
  rw [List.take_succ, List.getD_eq_getElem?_getD, List.getElem?_eq_getElem h]
  rfl

theorem set_append_cons {α : Type} (xs rest : List α) (x v : α) :
    (xs ++ x :: rest).set xs.length v = (xs ++ [v]) ++ rest := by
  rw [List.set_append_right _ _ (Nat.le_refl _)]
  simp

theorem rebuilt_succ_of_clear (stale : Nat → Option (List Nat)) (bits : List Bool)
    (img : List Nat) (n : Nat)
    (hbits : bits.length = BLOCK_STORE_NUM_BLOCKS) (hn : n < BLOCK_STORE_NUM_BLOCKS)
    (hbit : bits.getD n false = false) :
    rebuilt stale bits img n = rebuilt stale bits img (n + 1) := by
  obtain ⟨m, hm⟩ : ∃ m, BLOCK_STORE_NUM_BLOCKS - n = m + 1 :=
    ⟨BLOCK_STORE_NUM_BLOCKS - n - 1, by omega⟩
  have hm' : BLOCK_STORE_NUM_BLOCKS - (n + 1) = m := by omega
  unfold rebuilt
  rw [hm, hm', take_succ_of_getD bits n (by omega), hbit, List.range_succ, List.map_append,
    append_replicate_succ, List.range'_succ, List.map_cons]
  have hbit' : bits[n]?.getD false = false := by
    simpa [List.getD_eq_getElem?_getD] using hbit
  simp [hbit']

theorem rebuilt_succ_of_set (stale : Nat → Option (List Nat)) (bits : List Bool)
    (img : List Nat) (n : Nat)
    (hbits : bits.length = BLOCK_STORE_NUM_BLOCKS) (hn : n < BLOCK_STORE_NUM_BLOCKS)
    (hbit : bits.getD n false = true) (old : Option (List Nat)) :
    (⟨bitmap_set (rebuilt stale bits img n).fbm n,
        (((rebuilt stale bits img n).blocks.set n old).set n (some (file_block img n)))⟩
      : block_store_t) = rebuilt stale bits img (n + 1) := by
  obtain ⟨m, hm⟩ : ∃ m, BLOCK_STORE_NUM_BLOCKS - n = m + 1 :=
    ⟨BLOCK_STORE_NUM_BLOCKS - n - 1, by omega⟩
  have hm' : BLOCK_STORE_NUM_BLOCKS - (n + 1) = m := by omega
  have hlt : (bits.take n).length = n := by rw [List.length_take]; omega
  have hlr : ((List.range n).map
      (fun i => if bits.getD i false then some (file_block img i) else stale i)).length
      = n := by
    simp
  unfold rebuilt
  simp only [bitmap_set, List.set_set]
  rw [hm, hm', take_succ_of_getD bits n (by omega), hbit, List.range_succ, List.map_append,
    List.range'_succ, List.map_cons]
  congr 1
  · congr 2
    have := set_append_replicate (bits.take n) m false true
    rw [hlt] at this
    exact this
  · have := set_append_cons ((List.range n).map
      (fun i => if bits.getD i false then some (file_block img i) else stale i))
      ((List.range' (n + 1) m).map stale) (stale n) (some (file_block img n))
    rw [hlr] at this
    rw [this]
    have hbit' : bits[n]?.getD false = true := by
      simpa [List.getD_eq_getElem?_getD] using hbit
    simp [hbit']

theorem write_fresh_block (f : Option bitmap_t) (blocks : List (Option (List Nat))) (n : Nat)
    (fb : List Nat) (hn : n < blocks.length) (hn' : n < BLOCK_STORE_NUM_BLOCKS)
    (hfb : fb.length = BLOCK_SIZE_BYTES) :
    block_store_write (some ⟨f, blocks.set n (calloc BLOCK_SIZE_BYTES 1)⟩) n (some fb)
      = (BLOCK_SIZE_BYTES,
          some ⟨f, (blocks.set n (calloc BLOCK_SIZE_BYTES 1)).set n (some fb)⟩) := by
  have h1 : ¬ n > BLOCK_STORE_NUM_BYTES := by
    simp only [BLOCK_STORE_NUM_BYTES, BLOCK_STORE_NUM_BLOCKS, BLOCK_SIZE_BYTES] at *; omega
  have h2 : (blocks.set n (calloc BLOCK_SIZE_BYTES 1)).getD n none
      = some (List.replicate BLOCK_SIZE_BYTES 0) := by
    simp [calloc, List.getD_eq_getElem?_getD, List.getElem?_set, hn]
  have h3 : memcpy (List.replicate BLOCK_SIZE_BYTES 0) fb BLOCK_SIZE_BYTES = fb :=
    take_append_drop_of_length _ _ _ hfb (List.length_replicate _ _)
  simp only [block_store_write, if_neg h1, h2, h3]

theorem well_formed_rebuilt (stale : Nat → Option (List Nat)) (bits : List Bool)
    (img : List Nat) (n : Nat)
    (hbits : bits.length = BLOCK_STORE_NUM_BLOCKS) (hn : n ≤ BLOCK_STORE_NUM_BLOCKS) :
    well_formed (rebuilt stale bits img n) = true := by
  rw [well_formed_iff]
  refine ⟨_, rfl, ?_, ?_⟩
  · simp only [List.length_append, List.length_take, List.length_replicate]; omega
  · simp only [rebuilt, List.length_append, List.length_map, List.length_range,
      List.length_range']; omega

theorem test_rebuilt_next (stale : Nat → Option (List Nat)) (bits : List Bool)
    (img : List Nat) (n : Nat)
    (hbits : bits.length = BLOCK_STORE_NUM_BLOCKS) (hn : n < BLOCK_STORE_NUM_BLOCKS) :
    bitmap_test (rebuilt stale bits img n).fbm n = false := by
  obtain ⟨m, hm⟩ : ∃ m, BLOCK_STORE_NUM_BLOCKS - n = m + 1 :=
    ⟨BLOCK_STORE_NUM_BLOCKS - n - 1, by omega⟩
  have hlt : (bits.take n).length = n := by rw [List.length_take]; omega
  have := getD_append_replicate (bits.take n) m false false
  rw [hlt] at this
  simp only [bitmap_test, rebuilt, hm]
  exact this

theorem deserialize_step_eq (stale : Nat → Option (List Nat)) (bits : List Bool)
    (img buf : List Nat) (n : Nat)
    (hbits : bits.length = BLOCK_STORE_NUM_BLOCKS)
    (himg : img.length = BLOCK_STORE_NUM_BYTES) (hn : n < BLOCK_STORE_NUM_BLOCKS)
    (hb : buf.length = BLOCK_SIZE_BYTES) :
    deserialize_step (some ⟨bits⟩) (some img)
        (some (some (rebuilt stale bits img n), buf, n * BLOCK_SIZE_BYTES)) n
      = some (some (rebuilt stale bits img (n + 1)), file_block img n,
          (n + 1) * BLOCK_SIZE_BYTES) := by
  have hle : (n + 1) * BLOCK_SIZE_BYTES ≤ img.length := by
    rw [himg]; exact Nat.mul_le_mul_right _ hn
  have hfb := length_file_block img n hle
  have hrl : n < (rebuilt stale bits img n).blocks.length := by
    simp only [rebuilt, List.length_append, List.length_map, List.length_range,
      List.length_range']; omega
  unfold deserialize_step
  simp only [posix_read_block img buf n hle hb, bitmap_test]
  cases hbit : bits.getD n false with
  | false =>
    simp only [Bool.false_eq_true, if_false]
    rw [rebuilt_succ_of_clear stale bits img n hbits hn hbit]
  | true =>
    simp only [if_true]
    rw [request_eq_of_clear _ n (well_formed_rebuilt stale bits img n hbits (Nat.le_of_lt hn)) hn
      (test_rebuilt_next stale bits img n hbits hn)]
    simp only [Bool.not_true, Bool.false_eq_true, if_false]
    rw [write_fresh_block _ _ n _ hrl hn hfb]
    simp only [ne_eq, not_true_eq_false, if_false]
    rw [rebuilt_succ_of_set stale bits img n hbits hn hbit]

theorem deserialize_fold (stale : Nat → Option (List Nat)) (bits : List Bool)
    (img buf0 : List Nat)
    (hbits : bits.length = BLOCK_STORE_NUM_BLOCKS)
    (himg : img.length = BLOCK_STORE_NUM_BYTES) (hb : buf0.length = BLOCK_SIZE_BYTES)
    (n : Nat) (hn : n ≤ BLOCK_STORE_NUM_BLOCKS) :
    ∃ buf, (List.range n).foldl (deserialize_step (some ⟨bits⟩) (some img))
          (some (some (rebuilt stale bits img 0), buf0, 0))
        = some (some (rebuilt stale bits img n), buf, n * BLOCK_SIZE_BYTES)
      ∧ buf.length = BLOCK_SIZE_BYTES := by
  induction n with
  | zero => exact ⟨buf0, by simp, hb⟩
  | succ n ih =>
    obtain ⟨buf, hf, hl⟩ := ih (by omega)
    have hle : (n + 1) * BLOCK_SIZE_BYTES ≤ img.length := by
      rw [himg]; exact Nat.mul_le_mul_right _ hn
    refine ⟨file_block img n, ?_, length_file_block img n hle⟩
    rw [List.range_succ, List.foldl_append, hf, List.foldl_cons, List.foldl_nil,
      deserialize_step_eq stale bits img buf n hbits himg (by omega) hl]

theorem rebuilt_zero (stale : Nat → Option (List Nat)) (bits : List Bool)
    (img : List Nat) :
    block_store_create stale = some (rebuilt stale bits img 0) := by
  rw [block_store_create_eq, List.range_eq_range']
  simp [rebuilt]

theorem deserialize_image (name : String) (img : List Nat) (junk : Nat → Nat)
    (stale : Nat → Option (List Nat)) (himg : img.length = BLOCK_STORE_NUM_BYTES) :
    block_store_deserialize (some name) (some img) junk stale
      = some (rebuilt stale (image_bits img) img BLOCK_STORE_NUM_BLOCKS) := by
  have hne : ¬ BLOCK_STORE_NUM_BLOCKS = 0 := by decide
  have hle : (127 + 1) * BLOCK_SIZE_BYTES ≤ img.length := by rw [himg]; decide
  have hbits : (image_bits img).length = BLOCK_STORE_NUM_BLOCKS := by simp [image_bits]
  have himp : bitmap_import BLOCK_STORE_NUM_BLOCKS (file_block img 127)
      = some ⟨image_bits img⟩ := by
    simp only [bitmap_import, if_neg hne, image_bits]
  obtain ⟨buf, hf, _⟩ := deserialize_fold stale (image_bits img) img (file_block img 127) hbits himg
    (length_file_block img 127 hle) 256 (by decide)
  unfold block_store_deserialize
  simp only [rebuilt_zero stale (image_bits img) img,
    posix_read_block img (malloc junk BLOCK_SIZE_BYTES) 127 hle (length_malloc _ _), himp, hf]
  rfl

/-! ## Serialize followed by deserialize -/

theorem image_bits_serialized (s : block_store_t) (b : bitmap_t) (img : List Nat)
    (hc : consistent s = true) (hb : s.fbm = some b)
    (h127 : file_block img 127 = image_block s 127) : image_bits img = b.bits := by
  obtain ⟨b', hb', hl, _⟩ := (consistent_iff s).1 hc
  have hbb : b' = b := by rw [hb] at hb'; exact (Option.some.inj hb').symm
  rw [hbb] at hl
  have hne : ¬ BLOCK_STORE_NUM_BLOCKS = 0 := by decide
  have h1 : bitmap_import BLOCK_STORE_NUM_BLOCKS (file_block img 127)
      = some ⟨image_bits img⟩ := by
    simp only [bitmap_import, if_neg hne, image_bits]
  have h2 : bitmap_import BLOCK_STORE_NUM_BLOCKS (file_block img 127) = some b := by
    rw [h127]
    unfold image_block
    rw [if_pos rfl, hb]
    exact import_export b _ hl
  rw [h1] at h2
  exact congrArg bitmap_t.bits (Option.some.inj h2)

theorem round_trip_restored (s : block_store_t) (hc : consistent s = true)
    (hs : blocks_sized s = true) (name : String) (hname : ¬ (name = "\n" ∨ name = ""))
    (junk junk' : Nat → Nat) (stale : Nat → Option (List Nat)) :
    block_store_deserialize (some name)
        (block_store_serialize (some s) (some name) junk).2 junk' stale
      = some (restored s stale) := by
  obtain ⟨img, hser, hlen, hblk⟩ := serialize_image s hc hs name hname junk
  obtain ⟨b, hb, hl, _⟩ := (consistent_iff s).1 hc
  have hbits := image_bits_serialized s b img hc hb (hblk 127 (by decide))
  rw [hser]
  dsimp only
  rw [deserialize_image name img junk' stale hlen, hbits]
  unfold rebuilt restored
  rw [hb, Nat.sub_self, List.take_of_length_le (Nat.le_of_eq hl)]
  simp only [List.replicate_zero, List.range'_zero, List.map_nil, List.append_nil, bitmap_test]
  congr 2
  apply List.map_congr_left
  intro i hi
  rw [hblk i (List.mem_range.1 hi)]

theorem restored_getD (s : block_store_t) (stale : Nat → Option (List Nat)) (i : Nat)
    (hi : i < BLOCK_STORE_NUM_BLOCKS) :
    (restored s stale).blocks.getD i none
      = if bitmap_test s.fbm i then some (image_block s i) else stale i := by
  simp [restored, List.getD_eq_getElem?_getD, List.getElem?_range hi]

theorem length_filled_blocks (k : Nat) (hk : k ≤ BLOCK_STORE_NUM_BLOCKS) :
    (filled k).blocks.length = BLOCK_STORE_NUM_BLOCKS := by
  simp only [filled, List.length_append, List.length_replicate]; omega

theorem run_request_write (i : Nat) (pat : List Nat) (hi : i < BLOCK_STORE_NUM_BLOCKS)
    (hp : pat.length = BLOCK_SIZE_BYTES) :
    run null_table [Op.request i, Op.write i pat] = some (written i pat) := by
  have hclear : bitmap_test (filled 0).fbm i = false := by
    rw [test_filled 0 i hi]; simp
  have hlen : i < (filled 0).blocks.length := by
    rw [length_filled_blocks 0 (Nat.zero_le _)]; exact hi
  simp only [run, List.foldl_cons, List.foldl_nil, Op.exec, filled_zero,
    request_eq_of_clear (filled 0) i (well_formed_filled 0 (Nat.zero_le _)) hi hclear,
    write_fresh_block _ _ i pat hlen hi hp, written]

theorem consistent_written (i : Nat) (pat : List Nat) (hi : i < BLOCK_STORE_NUM_BLOCKS)
    (hp : pat.length = BLOCK_SIZE_BYTES) : consistent (written i pat) = true := by
  obtain ⟨s, hs, hc⟩ := consistent_run [Op.request i, Op.write i pat]
  rw [run_request_write i pat hi hp] at hs
  rw [Option.some.inj hs]
  exact hc

theorem blocks_sized_written (i : Nat) (pat : List Nat)
    (hp : pat.length = BLOCK_SIZE_BYTES) : blocks_sized (written i pat) = true := by
  unfold blocks_sized
  rw [List.all_eq_true]
  intro e he
  simp only [written, List.set_set] at he
  rcases List.mem_or_eq_of_mem_set he with h | h
  · have : e = none := by
      simp only [filled, List.replicate_zero, List.nil_append] at h
      exact (List.mem_replicate.1 h).2
    rw [this]
  · rw [h]; simpa using hp

theorem test_written (i j : Nat) (pat : List Nat) (hi : i < BLOCK_STORE_NUM_BLOCKS)
    (hj : j < BLOCK_STORE_NUM_BLOCKS) :
    bitmap_test (written i pat).fbm j = decide (j = i) := by
  have h0 := test_filled 0 j hj
  have hl : i < (List.replicate 0 true
      ++ List.replicate (BLOCK_STORE_NUM_BLOCKS - 0) false).length := by
    simp only [List.length_append, List.length_replicate]; omega
  simp only [bitmap_test, filled, written, bitmap_set] at h0 ⊢
  by_cases h : j = i
  · rw [h, getD_set_self_bool _ _ _ hl]
    simp
  · rw [List.getD_eq_getElem?_getD, List.getElem?_set_ne (Ne.symm h),
      ← List.getD_eq_getElem?_getD, h0]
    simp [h]

theorem getD_written (i : Nat) (pat : List Nat) (hi : i < BLOCK_STORE_NUM_BLOCKS) :
    (written i pat).blocks.getD i none = some pat := by
  have hlen : i < (filled 0).blocks.length := by
    rw [length_filled_blocks 0 (Nat.zero_le _)]; exact hi
  simp [written, List.getD_eq_getElem?_getD, List.getElem?_set, hlen]

theorem used_written (i : Nat) (pat : List Nat) (hi : i < BLOCK_STORE_NUM_BLOCKS) :
    block_store_get_used_blocks (some (written i pat)) = 1 := by
  have hl : i < (List.replicate 0 true
      ++ List.replicate (BLOCK_STORE_NUM_BLOCKS - 0) false).length := by
    simp only [List.length_append, List.length_replicate]; omega
  have h0 : (List.replicate 0 true
      ++ List.replicate (BLOCK_STORE_NUM_BLOCKS - 0) false).getD i false = false := by
    have := test_filled 0 i hi
    simp only [bitmap_test, filled] at this
    rw [this]
    simp
  have hu := used_filled 0
  simp only [block_store_get_used_blocks, bitmap_total_set, filled] at hu
  simp only [block_store_get_used_blocks, bitmap_total_set, written, filled, bitmap_set,
    count_set_true _ i h0 hl, hu]

theorem read_restored (s : block_store_t) (stale : Nat → Option (List Nat)) (i : Nat)
    (buf : List Nat)
    (hc : consistent s = true) (hs : blocks_sized s = true)
    (hi : i < BLOCK_STORE_NUM_BLOCKS) (h0 : i ≠ 0) (hset : bitmap_test s.fbm i = true)
    (hb : buf.length = BLOCK_SIZE_BYTES) :
    block_store_read (some (restored s stale)) i (some buf)
      = (BLOCK_SIZE_BYTES, some (image_block s i)) := by
  have h1 : ¬ (i ≥ BLOCK_STORE_NUM_BYTES ∨ i = 0) := by
    simp only [BLOCK_STORE_NUM_BYTES, BLOCK_STORE_NUM_BLOCKS, BLOCK_SIZE_BYTES] at *; omega
  have h2 : memcpy buf (image_block s i) BLOCK_SIZE_BYTES = image_block s i :=
    take_append_drop_of_length _ _ _ (length_image_block s hc hs i) hb
  simp only [block_store_read, if_neg h1, restored_getD s stale i hi, hset, if_true, h2]

/-- C1 (the code departs from the claim), at two stores, the created stores
having null pointer tables. After `request(127)` and `write(127, p)` with `p`
made of 1024 bytes `7`, serialising and
deserialising keeps the used count, but `read(127)` on the result returns the
exported bitmap followed by filler bytes, not `p`. After `request(0)` and
`write(0, q)` with `q` the bytes `ABCD` followed by zeros, the rebuilt store
does hold `q` in slot 0, but `read(0)` returns 0 and copies nothing. -/
theorem round_trip_read_differs :
    (∃ s s', run null_table [Op.request 127, Op.write 127 (List.replicate BLOCK_SIZE_BYTES 7)]
          = some s
      ∧ s.blocks.getD 127 none = some (List.replicate BLOCK_SIZE_BYTES 7)
      ∧ block_store_deserialize (some "x.img")
          (block_store_serialize (some s) (some "x.img") (fun _ => 0)).2 (fun _ => 0)
          null_table
          = some s'
      ∧ block_store_get_used_blocks (some s') = block_store_get_used_blocks (some s)
      ∧ block_store_read (some s') 127 (some (List.replicate BLOCK_SIZE_BYTES 0))
          = (BLOCK_SIZE_BYTES, some (bitmap_export s.fbm
              ++ List.replicate (BLOCK_SIZE_BYTES - BITMAP_SIZE_BYTES) 48))
      ∧ bitmap_export s.fbm ++ List.replicate (BLOCK_SIZE_BYTES - BITMAP_SIZE_BYTES) 48
          ≠ List.replicate BLOCK_SIZE_BYTES 7)
    ∧ (∃ s s', run null_table
            [Op.request 0, Op.write 0 ([65, 66, 67, 68] ++ List.replicate 1020 0)]
          = some s
      ∧ s.blocks.getD 0 none = some ([65, 66, 67, 68] ++ List.replicate 1020 0)
      ∧ block_store_deserialize (some "x.img")
          (block_store_serialize (some s) (some "x.img") (fun _ => 0)).2 (fun _ => 0)
          null_table
          = some s'
      ∧ s'.blocks.getD 0 none = some ([65, 66, 67, 68] ++ List.replicate 1020 0)
      ∧ block_store_read (some s') 0 (some (List.replicate BLOCK_SIZE_BYTES 0))
          = (0, some (List.replicate BLOCK_SIZE_BYTES 0))) := by
  have hname : ¬ ("x.img" = "\n" ∨ "x.img" = "") := by decide
  constructor
  · have hp : (List.replicate BLOCK_SIZE_BYTES 7).length = BLOCK_SIZE_BYTES :=
      List.length_replicate _ _
    have hi : 127 < BLOCK_STORE_NUM_BLOCKS := by decide
    have hc := consistent_written 127 _ hi hp
    have hs := blocks_sized_written 127 _ hp
    have hset : bitmap_test (written 127 (List.replicate BLOCK_SIZE_BYTES 7)).fbm 127 = true := by
      rw [test_written 127 127 _ hi hi]; rfl
    have hclear : bitmap_test (written 127 (List.replicate BLOCK_SIZE_BYTES 7)).fbm 126
        = false := by
      rw [test_written 127 126 _ hi (by decide)]; rfl
    have himg : image_block (written 127 (List.replicate BLOCK_SIZE_BYTES 7)) 127
        = bitmap_export (written 127 (List.replicate BLOCK_SIZE_BYTES 7)).fbm
          ++ List.replicate (BLOCK_SIZE_BYTES - BITMAP_SIZE_BYTES) 48 := by
      simp only [image_block, data_block, hclear, if_true, Bool.false_eq_true, if_false,
        List.drop_replicate]
    refine ⟨written 127 _, restored (written 127 _) null_table, run_request_write 127 _ hi hp,
      getD_written 127 _ hi, round_trip_restored _ hc hs _ hname _ _ _, ?_, ?_, ?_⟩
    · obtain ⟨b, hb, _, _⟩ := (consistent_iff _).1 hc
      simp only [block_store_get_used_blocks, restored]
    · rw [read_restored _ _ 127 _ hc hs hi (by decide) hset (List.length_replicate _ _), himg]
    · intro h
      have hmem : 48 ∈ bitmap_export (written 127 (List.replicate BLOCK_SIZE_BYTES 7)).fbm
          ++ List.replicate (BLOCK_SIZE_BYTES - BITMAP_SIZE_BYTES) 48 :=
        List.mem_append.2 (Or.inr (List.mem_replicate.2 ⟨by decide, rfl⟩))
      rw [h] at hmem
      exact absurd (List.mem_replicate.1 hmem).2 (by decide)
  · have hp : ([65, 66, 67, 68] ++ List.replicate 1020 0).length = BLOCK_SIZE_BYTES := by
      rw [List.length_append, List.length_replicate]; rfl
    have hi : 0 < BLOCK_STORE_NUM_BLOCKS := by decide
    have hc := consistent_written 0 _ hi hp
    have hs := blocks_sized_written 0 _ hp
    have hset : bitmap_test (written 0 ([65, 66, 67, 68] ++ List.replicate 1020 0)).fbm 0
        = true := by
      rw [test_written 0 0 _ hi hi]; rfl
    refine ⟨written 0 _, restored (written 0 _) null_table, run_request_write 0 _ hi hp,
      getD_written 0 _ hi, round_trip_restored _ hc hs _ hname _ _ _, ?_, ?_⟩
    · rw [restored_getD _ _ 0 hi, hset, if_pos rfl]
      simp only [image_block, data_block, hset, if_true, getD_written 0 _ hi]
      rfl
    · simp [block_store_read]

/-! ## Raw block reads and writes, and range checks -/

theorem getD_filled_zero (i : Nat) : (filled 0).blocks.getD i none = none := by
  simp only [filled, List.replicate_zero, List.nil_append, List.getD_eq_getElem?_getD,
    List.getElem?_replicate]
  split <;> rfl

theorem read_after_request (s : block_store_t) (i : Nat) (buf : List Nat)
    (hwf : well_formed s = true) (hi : i < BLOCK_STORE_NUM_BLOCKS) (h0 : i ≠ 0)
    (hreq : (block_store_request (some s) i).1 = true)
    (hb : buf.length = BLOCK_SIZE_BYTES) :
    block_store_read (block_store_request (some s) i).2 i (some buf)
      = (BLOCK_SIZE_BYTES, some (List.replicate BLOCK_SIZE_BYTES 0)) := by
  have hclear : bitmap_test s.fbm i = false := by
    cases h : bitmap_test s.fbm i with
    | false => rfl
    | true =>
      rw [request_eq_of_set s i h] at hreq
      exact absurd hreq (by simp)
  obtain ⟨_, _, _, hbl⟩ := (well_formed_iff s).1 hwf
  have hil : i < s.blocks.length := by rw [hbl]; exact hi
  have h1 : ¬ (i ≥ BLOCK_STORE_NUM_BYTES ∨ i = 0) := by
    simp only [BLOCK_STORE_NUM_BYTES, BLOCK_STORE_NUM_BLOCKS, BLOCK_SIZE_BYTES] at *; omega
  have h2 : (s.blocks.set i (calloc BLOCK_SIZE_BYTES 1)).getD i none
      = some (List.replicate BLOCK_SIZE_BYTES 0) := by
    simp [calloc, List.getD_eq_getElem?_getD, List.getElem?_set, hil]
  have h3 : memcpy buf (List.replicate BLOCK_SIZE_BYTES 0) BLOCK_SIZE_BYTES
      = List.replicate BLOCK_SIZE_BYTES 0 :=
    take_append_drop_of_length _ _ _ (List.length_replicate _ _) hb
  rw [request_eq_of_clear s i hwf hi hclear]
  simp only [block_store_read, if_neg h1, h2, h3]

/-- C11 (the code departs from the claim): the first `block_store_allocate` on a
fresh store, whatever its pointer table holds, returns id 0, and
`block_store_read` of that freshly allocated, never written slot returns 0 and
leaves the caller's buffer as it was, instead of returning `BLOCK_SIZE_BYTES`
and zero bytes. -/
theorem read_before_write_slot_zero (stale : Nat → Option (List Nat)) :
    (block_store_allocate (block_store_create stale)).1 = 0
      ∧ block_store_read (block_store_allocate (block_store_create stale)).2 0
          (some (List.replicate BLOCK_SIZE_BYTES 9))
        = (0, some (List.replicate BLOCK_SIZE_BYTES 9)) := by
  obtain ⟨s, hs, hf, hl⟩ := create_congr stale
  rw [hs, (allocate_congr s (filled 0) hf hl).1, allocate_filled 0 (by decide)]
  refine ⟨rfl, ?_⟩
  cases (block_store_allocate (some s)).2 <;> simp [block_store_read]

/-- C12 (the code departs from the claim): on a fresh store with a null pointer
table, slot 5 is not allocated, and `block_store_read` of it leaves the caller's buffer as it was but
returns `BLOCK_SIZE_BYTES`, not 0. -/
theorem read_unallocated_returns_block_size :
    ∃ s, block_store_create null_table = some s
      ∧ well_formed s = true
      ∧ 5 < BLOCK_STORE_NUM_BLOCKS
      ∧ bitmap_test s.fbm 5 = false
      ∧ s.blocks.getD 5 none = none
      ∧ block_store_read (some s) 5 (some (List.replicate BLOCK_SIZE_BYTES 9))
          = (BLOCK_SIZE_BYTES, some (List.replicate BLOCK_SIZE_BYTES 9))
      ∧ BLOCK_SIZE_BYTES ≠ 0 := by
  have h1 : ¬ (5 ≥ BLOCK_STORE_NUM_BYTES ∨ 5 = 0) := by decide
  refine ⟨filled 0, filled_zero, well_formed_filled 0 (Nat.zero_le _), by decide, ?_,
    getD_filled_zero 5, ?_, by decide⟩
  · rw [test_filled 0 5 (by decide)]; rfl
  · simp only [block_store_read, if_neg h1, getD_filled_zero 5]

/-- C13 (the code departs from the claim): on a fresh store with a null pointer
table, slot 5 is not allocated, and `block_store_write` to it leaves the store as it was but returns
`BLOCK_SIZE_BYTES`, not 0. -/
theorem write_unallocated_returns_block_size :
    ∃ s, block_store_create null_table = some s
      ∧ well_formed s = true
      ∧ 5 < BLOCK_STORE_NUM_BLOCKS
      ∧ bitmap_test s.fbm 5 = false
      ∧ s.blocks.getD 5 none = none
      ∧ block_store_write (some s) 5 (some (List.replicate BLOCK_SIZE_BYTES 9))
          = (BLOCK_SIZE_BYTES, some s)
      ∧ BLOCK_SIZE_BYTES ≠ 0 := by
  have h1 : ¬ (5 > BLOCK_STORE_NUM_BYTES) := by decide
  refine ⟨filled 0, filled_zero, well_formed_filled 0 (Nat.zero_le _), by decide, ?_,
    getD_filled_zero 5, ?_, by decide⟩
  · rw [test_filled 0 5 (by decide)]; rfl
  · simp only [block_store_write, if_neg h1, getD_filled_zero 5]

/-- C14 (the code departs from the claim): ids 256 and 1000 are not below
`BLOCK_STORE_NUM_BLOCKS`, yet for every store, whatever its table holds and
whatever word lies at those indices, `block_store_read` and `block_store_write`
with these ids pass the range check, which compares with
`BLOCK_STORE_NUM_BYTES`, and return `BLOCK_SIZE_BYTES`, not 0. -/
theorem out_of_range_read_write_accepted (s : block_store_t) (buf : List Nat) :
    BLOCK_STORE_NUM_BLOCKS ≤ 256
      ∧ (block_store_read (some s) 256 (some buf)).1 = BLOCK_SIZE_BYTES
      ∧ (block_store_write (some s) 256 (some buf)).1 = BLOCK_SIZE_BYTES
      ∧ (block_store_read (some s) 1000 (some buf)).1 = BLOCK_SIZE_BYTES
      ∧ (block_store_write (some s) 1000 (some buf)).1 = BLOCK_SIZE_BYTES
      ∧ BLOCK_SIZE_BYTES ≠ 0 := by
  have h1 : ¬ (256 ≥ BLOCK_STORE_NUM_BYTES ∨ 256 = 0) := by decide
  have h2 : ¬ (256 > BLOCK_STORE_NUM_BYTES) := by decide
  have h3 : ¬ (1000 ≥ BLOCK_STORE_NUM_BYTES ∨ 1000 = 0) := by decide
  have h4 : ¬ (1000 > BLOCK_STORE_NUM_BYTES) := by decide
  refine ⟨by decide, ?_, ?_, ?_, ?_, by decide⟩
  · simp only [block_store_read, if_neg h1]
    split <;> rfl
  · simp only [block_store_write, if_neg h2]
    split <;> rfl
  · simp only [block_store_read, if_neg h3]
    split <;> rfl
  · simp only [block_store_write, if_neg h4]
    split <;> rfl

/-- C15: for every store pointer and every id that is not below
`BLOCK_STORE_NUM_BLOCKS`, `block_store_request` returns `false` and
`block_store_release` does nothing; both leave the bitmap and every table entry
as they were. -/
theorem out_of_range_request_release (bs : Option block_store_t) (block_id : Nat)
    (hid : BLOCK_STORE_NUM_BLOCKS ≤ block_id) :
    block_store_request bs block_id = (false, bs)
      ∧ block_store_release bs block_id = bs := by
  have h : ¬ block_id < BLOCK_STORE_NUM_BLOCKS := Nat.not_lt.2 hid
  constructor
  · unfold block_store_request
    cases bs with
    | none => rfl
    | some s =>
      dsimp only
      split
      · rfl
      · rw [if_neg h]
  · unfold block_store_release
    cases bs with
    | none => rfl
    | some s =>
      dsimp only
      split
      · rfl
      · rw [if_neg h]

/-- Witness for C15: id 256 on the store with slots 0 to 4 allocated. -/
theorem out_of_range_request_release_witness :
    BLOCK_STORE_NUM_BLOCKS ≤ 256
      ∧ block_store_request (some (filled 5)) 256 = (false, some (filled 5))
      ∧ block_store_release (some (filled 5)) 256 = some (filled 5) :=
  ⟨by decide, out_of_range_request_release (some (filled 5)) 256 (by decide)⟩

theorem ffz_of_all_set (b : bitmap_t)
    (h : ∀ i, i < b.bits.length → bitmap_test (some b) i = true) :
    bitmap_ffz (some b) = SIZE_MAX := by
  have hall : ∀ x ∈ b.bits, (fun x : Bool => !x) x = false := by
    intro x hx
    obtain ⟨i, hi, hxi⟩ := List.getElem_of_mem hx
    have := h i hi
    simp only [bitmap_test, List.getD_eq_getElem?_getD, List.getElem?_eq_getElem hi,
      Option.getD_some] at this
    rw [← hxi, this]
    rfl
  simp only [bitmap_ffz, List.findIdx_eq_length_of_false hall, if_true]

theorem allocate_invalid_snd (bs : Option block_store_t)
    (h : (block_store_allocate bs).1 = SIZE_MAX) : (block_store_allocate bs).2 = bs := by
  unfold block_store_allocate at h ⊢
  cases bs with
  | none => rfl
  | some s =>
    dsimp only at h ⊢
    split
    · rename_i hg
      rw [if_pos hg] at h
      exact absurd h hg.1
    · rfl

/-- C16: on a well-formed store whose bits are all set, `block_store_allocate`
returns `SIZE_MAX` and leaves the store as it was; and for every store pointer,
whenever `block_store_allocate` returns `SIZE_MAX` the store is left as it
was. -/
theorem allocate_invalid_unchanged (s : block_store_t) (hwf : well_formed s = true) :
    ((∀ i, i < BLOCK_STORE_NUM_BLOCKS → bitmap_test s.fbm i = true)
        → block_store_allocate (some s) = (SIZE_MAX, some s))
      ∧ (∀ bs, (block_store_allocate bs).1 = SIZE_MAX → (block_store_allocate bs).2 = bs) := by
  refine ⟨?_, allocate_invalid_snd⟩
  intro hall
  obtain ⟨b, hb, hl, _⟩ := (well_formed_iff s).1 hwf
  have hffz : bitmap_ffz s.fbm = SIZE_MAX := by
    rw [hb]
    apply ffz_of_all_set
    intro i hi
    rw [← hb]
    exact hall i (hl ▸ hi)
  simp only [block_store_allocate, hffz, ne_eq, not_true_eq_false, false_and, if_false]

/-- Witness for C16: the store with all 256 slots allocated, and for the general
part the store with slots 0 to 254 allocated. -/
theorem allocate_invalid_unchanged_witness :
    well_formed (filled BLOCK_STORE_NUM_BLOCKS) = true
      ∧ block_store_allocate (some (filled BLOCK_STORE_NUM_BLOCKS))
          = (SIZE_MAX, some (filled BLOCK_STORE_NUM_BLOCKS))
      ∧ (block_store_allocate (some (filled BLOCK_STORE_AVAIL_BLOCKS))).2
          = some (filled BLOCK_STORE_AVAIL_BLOCKS) :=
  ⟨well_formed_filled _ (Nat.le_refl _),
    (allocate_invalid_unchanged (filled BLOCK_STORE_NUM_BLOCKS)
      (well_formed_filled _ (Nat.le_refl _))).1
      (fun i hi => by rw [test_filled _ i hi]; exact decide_eq_true hi),
    (allocate_invalid_unchanged (filled BLOCK_STORE_NUM_BLOCKS)
      (well_formed_filled _ (Nat.le_refl _))).2 (some (filled BLOCK_STORE_AVAIL_BLOCKS))
      (congrArg Prod.fst allocate_filled_full)⟩

/-- C18: on a well-formed store whose buffers have `BLOCK_SIZE_BYTES` bytes, for
an in-range id whose slot holds a buffer and a source buffer `b` of
`BLOCK_SIZE_BYTES` bytes, `block_store_write` returns `BLOCK_SIZE_BYTES`;
afterwards slot `i` holds exactly `b`, and the bitmap and every other slot are as
they were. -/
theorem write_postcondition (s : block_store_t) (i : Nat) (b : List Nat)
    (hwf : well_formed s = true) (hs : blocks_sized s = true)
    (hi : i < BLOCK_STORE_NUM_BLOCKS) (hslot : (s.blocks.getD i none).isSome = true)
    (hb : b.length = BLOCK_SIZE_BYTES) :
    ∃ s', block_store_write (some s) i (some b) = (BLOCK_SIZE_BYTES, some s')
      ∧ s'.blocks.getD i none = some b
      ∧ s'.fbm = s.fbm
      ∧ ∀ j, j ≠ i → s'.blocks.getD j none = s.blocks.getD j none := by
  obtain ⟨_, _, _, hbl⟩ := (well_formed_iff s).1 hwf
  have hil : i < s.blocks.length := by rw [hbl]; exact hi
  have h1 : ¬ i > BLOCK_STORE_NUM_BYTES := by
    simp only [BLOCK_STORE_NUM_BYTES, BLOCK_STORE_NUM_BLOCKS, BLOCK_SIZE_BYTES] at *; omega
  cases hq : s.blocks.getD i none with
  | none => rw [hq] at hslot; exact absurd hslot (by decide)
  | some blk =>
    have hcp : memcpy blk b BLOCK_SIZE_BYTES = b :=
      take_append_drop_of_length _ _ _ hb (sized_getD s hs i blk hq)
    refine ⟨⟨s.fbm, s.blocks.set i (some b)⟩, ?_, ?_, rfl, ?_⟩
    · simp only [block_store_write, if_neg h1, hq, hcp]
    · simp [List.getD_eq_getElem?_getD, List.getElem?_set, hil]
    · intro j hj
      simp only [List.getD_eq_getElem?_getD, List.getElem?_set_ne (Ne.symm hj)]

/-- Witness for C18: the store reached by `request(5)` and `write(5, p)`, written
again at slot 5. -/
theorem write_postcondition_witness :
    well_formed (written 5 (List.replicate BLOCK_SIZE_BYTES 7)) = true
      ∧ blocks_sized (written 5 (List.replicate BLOCK_SIZE_BYTES 7)) = true
      ∧ 5 < BLOCK_STORE_NUM_BLOCKS
      ∧ ((written 5 (List.replicate BLOCK_SIZE_BYTES 7)).blocks.getD 5 none).isSome = true
      ∧ (List.replicate BLOCK_SIZE_BYTES 3).length = BLOCK_SIZE_BYTES
      ∧ ∃ s', block_store_write (some (written 5 (List.replicate BLOCK_SIZE_BYTES 7))) 5
            (some (List.replicate BLOCK_SIZE_BYTES 3)) = (BLOCK_SIZE_BYTES, some s')
        ∧ s'.blocks.getD 5 none = some (List.replicate BLOCK_SIZE_BYTES 3)
        ∧ s'.fbm = (written 5 (List.replicate BLOCK_SIZE_BYTES 7)).fbm
        ∧ ∀ j, j ≠ 5 → s'.blocks.getD j none
            = (written 5 (List.replicate BLOCK_SIZE_BYTES 7)).blocks.getD j none :=
  have hp : (List.replicate BLOCK_SIZE_BYTES 7).length = BLOCK_SIZE_BYTES :=
    List.length_replicate _ _
  have hwf := consistent_well_formed _ (consistent_written 5 _ (by decide) hp)
  have hsz := blocks_sized_written 5 _ hp
  have hslot : ((written 5 (List.replicate BLOCK_SIZE_BYTES 7)).blocks.getD 5 none).isSome
      = true := by rw [getD_written 5 _ (by decide)]; rfl
  ⟨hwf, hsz, by decide, hslot, List.length_replicate _ _,
    write_postcondition _ 5 _ hwf hsz (by decide) hslot (List.length_replicate _ _)⟩

/-! ## Persistence claims -/

theorem data_block_of_set (s : block_store_t) (hc : consistent s = true) (i : Nat)
    (hset : bitmap_test s.fbm i = true) : s.blocks.getD i none = some (data_block s i) := by
  have h := hset
  rw [test_eq_isSome s i hc] at h
  unfold data_block
  rw [if_pos hset]
  cases hq : s.blocks.getD i none with
  | none => rw [hq] at h; exact absurd h (by decide)
  | some blk => rfl

/-- C17: for a store that satisfies the bitmap/table invariant (its buffers
having `BLOCK_SIZE_BYTES` bytes) and an accepted file name,
`block_store_serialize` returns `BLOCK_STORE_NUM_BLOCKS * BLOCK_SIZE_BYTES` and
the file holds exactly that many bytes; block 127 of the file starts with the
`BITMAP_SIZE_BYTES` bytes of the exported bitmap, and every other block `i` is
the buffer of slot `i` when bit `i` is set and `BLOCK_SIZE_BYTES` characters `0`
when it is clear. -/
theorem serialized_layout (s : block_store_t) (name : String) (junk : Nat → Nat)
    (hc : consistent s = true) (hs : blocks_sized s = true)
    (hname : ¬ (name = "\n" ∨ name = "")) :
    ∃ img, block_store_serialize (some s) (some name) junk
          = (BLOCK_STORE_NUM_BLOCKS * BLOCK_SIZE_BYTES, some img)
      ∧ img.length = BLOCK_STORE_NUM_BLOCKS * BLOCK_SIZE_BYTES
      ∧ (file_block img METADATA_BLOCK_INDEX).take BITMAP_SIZE_BYTES = bitmap_export s.fbm
      ∧ ∀ i, i < BLOCK_STORE_NUM_BLOCKS → i ≠ METADATA_BLOCK_INDEX →
          (bitmap_test s.fbm i = true → s.blocks.getD i none = some (file_block img i))
          ∧ (bitmap_test s.fbm i = false
              → file_block img i = List.replicate BLOCK_SIZE_BYTES 48) := by
  obtain ⟨img, hser, hlen, hblk⟩ := serialize_image s hc hs name hname junk
  obtain ⟨b, hb, hl, _⟩ := (consistent_iff s).1 hc
  refine ⟨img, hser, hlen, ?_, ?_⟩
  · rw [hblk METADATA_BLOCK_INDEX (by decide)]
    unfold image_block METADATA_BLOCK_INDEX
    rw [if_pos rfl, hb, List.take_append_of_le_length (Nat.le_of_eq (length_bitmap_export b hl).symm),
      List.take_of_length_le (Nat.le_of_eq (length_bitmap_export b hl))]
  · intro i hi h127
    have hne : ¬ i = 127 := h127
    rw [hblk i hi]
    unfold image_block
    rw [if_neg hne]
    constructor
    · intro hset
      exact data_block_of_set s hc i hset
    · intro hclear
      unfold data_block
      rw [hclear]
      rfl

/-- Witness for C17: the store reached by `request(5)` and `write(5, p)`,
serialised to `x.img`. -/
theorem serialized_layout_witness :
    consistent (written 5 (List.replicate BLOCK_SIZE_BYTES 7)) = true
      ∧ blocks_sized (written 5 (List.replicate BLOCK_SIZE_BYTES 7)) = true
      ∧ ¬ ("x.img" = "\n" ∨ "x.img" = "")
      ∧ ∃ img, block_store_serialize (some (written 5 (List.replicate BLOCK_SIZE_BYTES 7)))
            (some "x.img") (fun _ => 0)
            = (BLOCK_STORE_NUM_BLOCKS * BLOCK_SIZE_BYTES, some img)
        ∧ img.length = BLOCK_STORE_NUM_BLOCKS * BLOCK_SIZE_BYTES
        ∧ (file_block img METADATA_BLOCK_INDEX).take BITMAP_SIZE_BYTES
            = bitmap_export (written 5 (List.replicate BLOCK_SIZE_BYTES 7)).fbm
        ∧ ∀ i, i < BLOCK_STORE_NUM_BLOCKS → i ≠ METADATA_BLOCK_INDEX →
            (bitmap_test (written 5 (List.replicate BLOCK_SIZE_BYTES 7)).fbm i = true
              → (written 5 (List.replicate BLOCK_SIZE_BYTES 7)).blocks.getD i none
                  = some (file_block img i))
            ∧ (bitmap_test (written 5 (List.replicate BLOCK_SIZE_BYTES 7)).fbm i = false
                → file_block img i = List.replicate BLOCK_SIZE_BYTES 48) :=
  have hp : (List.replicate BLOCK_SIZE_BYTES 7).length = BLOCK_SIZE_BYTES :=
    List.length_replicate _ _
  ⟨consistent_written 5 _ (by decide) hp, blocks_sized_written 5 _ hp, by decide,
    serialized_layout _ "x.img" (fun _ => 0) (consistent_written 5 _ (by decide) hp)
      (blocks_sized_written 5 _ hp) (by decide)⟩

theorem import_take (fb : List Nat) :
    bitmap_import BLOCK_STORE_NUM_BLOCKS (fb.take BITMAP_SIZE_BYTES)
      = bitmap_import BLOCK_STORE_NUM_BLOCKS fb := by
  have hne : ¬ BLOCK_STORE_NUM_BLOCKS = 0 := by decide
  simp only [bitmap_import, if_neg hne]
  congr 2
  apply List.map_congr_left
  intro i hi
  have hi' : i / 8 < BITMAP_SIZE_BYTES := by
    have := List.mem_range.1 hi
    simp only [BLOCK_STORE_NUM_BLOCKS, BITMAP_SIZE_BYTES] at *; omega
  simp only [List.getD_eq_getElem?_getD, List.getElem?_take_of_lt hi']

theorem rebuilt_full (stale : Nat → Option (List Nat)) (bits : List Bool) (img : List Nat)
    (h : bits.length = BLOCK_STORE_NUM_BLOCKS) :
    rebuilt stale bits img BLOCK_STORE_NUM_BLOCKS
      = ⟨some ⟨bits⟩, (List.range BLOCK_STORE_NUM_BLOCKS).map
          (fun i => if bits.getD i false then some (file_block img i) else stale i)⟩ := by
  unfold rebuilt
  rw [Nat.sub_self, List.take_of_length_le (Nat.le_of_eq h)]
  simp only [List.replicate_zero, List.range'_zero, List.map_nil, List.append_nil]

/-- C19: for every file image of exactly
`BLOCK_STORE_NUM_BLOCKS * BLOCK_SIZE_BYTES` bytes, `block_store_deserialize`
returns a store, whatever the pointer table of the store it creates holds; in
it bit `i` is set exactly when bit `i` is set in the bitmap imported from the
first `BITMAP_SIZE_BYTES` bytes of block 127 of the image, and every slot whose
bit is set (slot 127 included) holds exactly block `i` of the image. -/
theorem deserialize_reconstructs (name : String) (img : List Nat) (junk : Nat → Nat)
    (stale : Nat → Option (List Nat))
    (hlen : img.length = BLOCK_STORE_NUM_BLOCKS * BLOCK_SIZE_BYTES) :
    ∃ s', block_store_deserialize (some name) (some img) junk stale = some s'
      ∧ ∀ i, i < BLOCK_STORE_NUM_BLOCKS →
          bitmap_test s'.fbm i
              = bitmap_test (bitmap_import BLOCK_STORE_NUM_BLOCKS
                  ((file_block img METADATA_BLOCK_INDEX).take BITMAP_SIZE_BYTES)) i
          ∧ (bitmap_test s'.fbm i = true
              → s'.blocks.getD i none = some (file_block img i)) := by
  have hne : ¬ BLOCK_STORE_NUM_BLOCKS = 0 := by decide
  have hbits : (image_bits img).length = BLOCK_STORE_NUM_BLOCKS := by simp [image_bits]
  have himp : bitmap_import BLOCK_STORE_NUM_BLOCKS (file_block img 127)
      = some ⟨image_bits img⟩ := by
    simp only [bitmap_import, if_neg hne, image_bits]
  refine ⟨_, deserialize_image name img junk stale hlen, ?_⟩
  intro i hi
  have hget : (rebuilt stale (image_bits img) img BLOCK_STORE_NUM_BLOCKS).blocks.getD i none
      = if (image_bits img).getD i false then some (file_block img i) else stale i := by
    rw [rebuilt_full _ _ _ hbits]
    simp [List.getD_eq_getElem?_getD, List.getElem?_range hi]
  have htest : bitmap_test (rebuilt stale (image_bits img) img BLOCK_STORE_NUM_BLOCKS).fbm i
      = (image_bits img).getD i false := by
    rw [rebuilt_full _ _ _ hbits]
    rfl
  refine ⟨?_, ?_⟩
  · rw [htest, import_take]
    unfold METADATA_BLOCK_INDEX
    rw [himp]
    rfl
  · intro h
    rw [htest] at h
    rw [hget, h, if_pos rfl]

/-- Witness for C19: the image made of `BLOCK_STORE_NUM_BLOCKS * BLOCK_SIZE_BYTES`
characters `0`, rebuilt into a store whose pointer table starts null. -/
theorem deserialize_reconstructs_witness :
    (List.replicate (BLOCK_STORE_NUM_BLOCKS * BLOCK_SIZE_BYTES) 48).length
        = BLOCK_STORE_NUM_BLOCKS * BLOCK_SIZE_BYTES
      ∧ ∃ s', block_store_deserialize (some "x.img")
            (some (List.replicate (BLOCK_STORE_NUM_BLOCKS * BLOCK_SIZE_BYTES) 48)) (fun _ => 0)
            null_table = some s'
        ∧ ∀ i, i < BLOCK_STORE_NUM_BLOCKS →
            bitmap_test s'.fbm i
                = bitmap_test (bitmap_import BLOCK_STORE_NUM_BLOCKS
                    ((file_block (List.replicate (BLOCK_STORE_NUM_BLOCKS * BLOCK_SIZE_BYTES) 48)
                      METADATA_BLOCK_INDEX).take BITMAP_SIZE_BYTES)) i
            ∧ (bitmap_test s'.fbm i = true → s'.blocks.getD i none
                = some (file_block
                    (List.replicate (BLOCK_STORE_NUM_BLOCKS * BLOCK_SIZE_BYTES) 48) i)) :=
  ⟨List.length_replicate _ _,
    deserialize_reconstructs "x.img" _ (fun _ => 0) null_table (List.length_replicate _ _)⟩

/-- C20: for a store that satisfies the bitmap/table invariant (its buffers
having `BLOCK_SIZE_BYTES` bytes), deserialising the file that
`block_store_serialize` writes gives, whatever the pointer table of the store
that deserialising creates holds, a store with the same bitmap, hence the
same set bits, and with, for every allocated id other than 127, a slot buffer
equal to the one of the original store. -/
theorem round_trip_state (s : block_store_t) (name : String) (junk junk' : Nat → Nat)
    (stale : Nat → Option (List Nat)) (hc : consistent s = true) (hs : blocks_sized s = true)
    (hname : ¬ (name = "\n" ∨ name = "")) :
    ∃ s', block_store_deserialize (some name)
          (block_store_serialize (some s) (some name) junk).2 junk' stale = some s'
      ∧ s'.fbm = s.fbm
      ∧ (∀ i, bitmap_test s'.fbm i = bitmap_test s.fbm i)
      ∧ ∀ i, i < BLOCK_STORE_NUM_BLOCKS → i ≠ METADATA_BLOCK_INDEX →
          bitmap_test s.fbm i = true → s'.blocks.getD i none = s.blocks.getD i none := by
  refine ⟨restored s stale, round_trip_restored s hc hs name hname junk junk' stale, rfl,
    fun _ => rfl, ?_⟩
  intro i hi h127 hset
  have hne : ¬ i = 127 := h127
  rw [restored_getD s stale i hi, hset, if_pos rfl, data_block_of_set s hc i hset]
  unfold image_block
  rw [if_neg hne]

/-- Witness for C20: the store reached by `request(5)` and `write(5, p)`,
serialised to and deserialised from `x.img`. -/
theorem round_trip_state_witness :
    consistent (written 5 (List.replicate BLOCK_SIZE_BYTES 7)) = true
      ∧ blocks_sized (written 5 (List.replicate BLOCK_SIZE_BYTES 7)) = true
      ∧ ¬ ("x.img" = "\n" ∨ "x.img" = "")
      ∧ ∃ s', block_store_deserialize (some "x.img")
            (block_store_serialize (some (written 5 (List.replicate BLOCK_SIZE_BYTES 7)))
              (some "x.img") (fun _ => 0)).2 (fun _ => 0) null_table = some s'
        ∧ s'.fbm = (written 5 (List.replicate BLOCK_SIZE_BYTES 7)).fbm
        ∧ (∀ i, bitmap_test s'.fbm i
            = bitmap_test (written 5 (List.replicate BLOCK_SIZE_BYTES 7)).fbm i)
        ∧ ∀ i, i < BLOCK_STORE_NUM_BLOCKS → i ≠ METADATA_BLOCK_INDEX →
            bitmap_test (written 5 (List.replicate BLOCK_SIZE_BYTES 7)).fbm i = true
            → s'.blocks.getD i none
                = (written 5 (List.replicate BLOCK_SIZE_BYTES 7)).blocks.getD i none :=
  have hp : (List.replicate BLOCK_SIZE_BYTES 7).length = BLOCK_SIZE_BYTES :=
    List.length_replicate _ _
  ⟨consistent_written 5 _ (by decide) hp, blocks_sized_written 5 _ hp, by decide,
    round_trip_state _ "x.img" (fun _ => 0) (fun _ => 0) null_table
      (consistent_written 5 _ (by decide) hp) (blocks_sized_written 5 _ hp) (by decide)⟩

end BlockStore
